import Mathlib

/-!
Verification of the multi-criterion edge-synthesis and combination-logic engine
of the repository's `EdgeGenerationService`
(`src/backend/app/services/edge_generation_service.py`).

The Python service is shallowly embedded: Python `set`s of strings are modelled
as duplicate-free `List String` values (only membership and size of these sets
are ever observed by the program logic; iteration order of a Python set/dict is
unspecified, so the order chosen by the embedding is irrelevant to every
property below), Python dicts keyed by strings are modelled as association
lists or functions, and Python exceptions are modelled with `Except`.
-/

namespace DeepGit

/-! ### Python string primitives used by the service -/

/-- Whitespace test matching the characters Python's `str.strip()` removes
(ASCII subset, which is all the service's data uses). -/
def isPySpace (c : Char) : Bool :=
  c == ' ' || c == '\t' || c == '\n' || c == '\r' || c == Char.ofNat 11 || c == Char.ofNat 12

/-- Quote characters stripped by `item.strip('"\'')` in `_parse_list_string`. -/
def isQuoteChar (c : Char) : Bool :=
  c == Char.ofNat 34 || c == Char.ofNat 39

/-- Drop characters satisfying `p` from both ends of a character list. -/
def trimBy (p : Char → Bool) (cs : List Char) : List Char :=
  ((cs.dropWhile p).reverse.dropWhile p).reverse

/-- Python `s.strip()`. -/
def pyStrip (s : String) : String :=
  String.mk (trimBy isPySpace s.data)

/-- Python `s.strip('"\'')`. -/
def pyStripQuotes (s : String) : String :=
  String.mk (trimBy isQuoteChar s.data)

/-- Helper for `pySplit`: scan the characters, cutting at the separator. -/
def pySplitAux (sep : Char) : List Char → List Char → List String
  | [], acc => [String.mk acc.reverse]
  | c :: cs, acc =>
    if c == sep then String.mk acc.reverse :: pySplitAux sep cs []
    else pySplitAux sep cs (c :: acc)

/-- Python `s.split(sep)` for a one-character separator: never raises and never
returns an empty list (`"".split(sep) == [""]`). -/
def pySplit (s : String) (sep : Char) : List String :=
  pySplitAux sep s.data []

/-- Kernel-reducible lexicographic comparison of character lists by code point,
matching how Python's `sorted` compares strings. -/
def charListLe : List Char → List Char → Bool
  | [], _ => true
  | _ :: _, [] => false
  | c :: cs, d :: ds =>
    if c.toNat < d.toNat then true
    else if d.toNat < c.toNat then false
    else charListLe cs ds

/-- Lexicographic string comparison by code point (Python string `<=`). -/
def strLe (a b : String) : Bool :=
  charListLe a.data b.data

/-- Python `tuple(sorted([x, y]))`: the canonical unordered-pair key used to
group candidate edges by repository pair. -/
def pairKey (x y : String) : String × String :=
  if strLe x y then (x, y) else (y, x)

/-- Python `'|'.join(items)`. -/
def joinPipe : List String → String
  | [] => ""
  | [s] => s
  | s :: rest => s ++ "|" ++ joinPipe rest

/-- Insert a string into an ascending list (helper for `sortStrings`). -/
def insertLe (x : String) : List String → List String
  | [] => [x]
  | y :: ys => if strLe x y then x :: y :: ys else y :: insertLe x ys

/-- Python `sorted(items)` on strings: stable ascending insertion sort. -/
def sortStrings (l : List String) : List String :=
  l.foldr insertLe []

/-! ### `_parse_list_string`: total parsing of delimited set encodings

Python source (`_parse_list_string`): try a bracketed list first, then
pipe-separated, then comma-separated, then a single bare item; every branch
strips whitespace and discards empty tokens, and the result is a set. -/

/-- Shallow embedding of `EdgeGenerationService._parse_list_string`.  The
returned duplicate-free list models the Python `set`. -/
def parseListString (dataStr : String) : List String :=
  if dataStr == "" then []
  else
    let s := pyStrip dataStr
    if s == "" then []
    else if s.data.head? == some '[' && s.data.getLast? == some ']' then
      let inner := pyStrip (String.mk ((s.data.drop 1).dropLast))
      if inner == "" then []
      else ((((pySplit inner ',').map (fun t => pyStripQuotes (pyStrip t))).filter
        (fun t => t != "")).dedup)
    else if s.data.contains '|' then
      ((((pySplit s '|').map pyStrip).filter (fun t => t != "")).dedup)
    else if s.data.contains ',' then
      ((((pySplit s ',').map pyStrip).filter (fun t => t != "")).dedup)
    else [s]

/-- Python `set.intersection`: the elements of `a` also in `b`, as a
duplicate-free list (`a` and `b` model sets). -/
def pyInter (a b : List String) : List String :=
  a.dedup.filter (fun x => b.contains x)

/-! ### Data model -/

/-- A repository node: its identifier plus the raw string attributes the
criterion evaluators read (`topics`, `contributors`, `stargazers` as stored on
the graph by `_add_nodes_to_graph`; other attributes are opaque pass-through
data never read by the engine and are omitted). -/
structure Node where
  id : String
  topics : String
  contributors : String
  stargazers : String
deriving DecidableEq

/-- A candidate edge produced by one criterion evaluator: the Python triple
`(repo1, repo2, {'edge_type': ..., <evidence key>: <evidence>, 'weight': ...})`.
Each evaluator stores exactly one kind-specific evidence entry; the
organization evaluator's scalar evidence is modelled as a one-element list. -/
structure CandidateEdge where
  repo1 : String
  repo2 : String
  edge_type : String
  evKey : String
  evVal : List String
  weight : Nat
deriving DecidableEq

/-- The combined edge built by `_create_combined_edge`: criteria kinds in input
order, the de-duplicated merged evidence, and the summed weight. -/
structure CombinedEdge where
  repo1 : String
  repo2 : String
  criteria_satisfied : List String
  evidence : List (String × List String)
  weight : Nat
deriving DecidableEq

/-- A final edge kept by the combination engine: either a single candidate
promoted as-is or the result of `_create_combined_edge`. -/
inductive FinalEdge where
  | single : CandidateEdge → FinalEdge
  | combined : CombinedEdge → FinalEdge
deriving DecidableEq

/-- Unordered-pair key of a candidate edge. -/
def ckey (e : CandidateEdge) : String × String :=
  pairKey e.repo1 e.repo2

/-- Unordered-pair key of a final edge. -/
def fkey : FinalEdge → String × String
  | .single e => pairKey e.repo1 e.repo2
  | .combined c => pairKey c.repo1 c.repo2

/-- The `edge_type` attribute of a final edge, as read by the
`use_and_logic` filter (`edge_data.get('edge_type', 'unknown')`). -/
def ftype : FinalEdge → String
  | .single e => e.edge_type
  | .combined _ => "combined"

/-- The criteria configuration dictionary (§3 of the spec): the four enabling
flags, the per-criterion thresholds read by the two entry points, and the
combination-policy options. -/
structure CriteriaConfig where
  topic_based_linking : Bool
  contributor_overlap_enabled : Bool
  shared_organization_enabled : Bool
  common_stargazers_enabled : Bool
  topic_threshold : Nat
  contributor_overlap_threshold : Nat
  contributor_threshold : Nat
  stargazer_overlap_threshold : Nat
  stargazer_threshold : Nat
  strict_and_logic : Bool
  min_criteria_required : Nat
  use_and_logic : Bool
deriving DecidableEq

/-- The four criterion kinds. -/
inductive Crit where
  | topic
  | contrib
  | org
  | star
deriving DecidableEq

/-- The `edge_type` string each criterion writes. -/
def kindName : Crit → String
  | .topic => "topic_based"
  | .contrib => "contributor_overlap"
  | .org => "shared_organization"
  | .star => "stargazer_overlap"

/-- Whether a criterion's enabling flag is set. -/
def critEnabled (cfg : CriteriaConfig) : Crit → Bool
  | .topic => cfg.topic_based_linking
  | .contrib => cfg.contributor_overlap_enabled
  | .org => cfg.shared_organization_enabled
  | .star => cfg.common_stargazers_enabled

/-- The enabled criteria in the service's fixed evaluation order
(topic, contributor, organization, stargazer). -/
def enabledCrits (cfg : CriteriaConfig) : List Crit :=
  [Crit.topic, Crit.contrib, Crit.org, Crit.star].filter (critEnabled cfg)

/-- Count of enabled criteria (`enabled_criteria = sum([...])` in the three
`_apply_*_logic` functions). -/
def enabledCount (cfg : CriteriaConfig) : Nat :=
  (enabledCrits cfg).length

/-- The set `R` of required kinds built by `_apply_strict_and_logic`, in the
same flag order as the Python code adds them. -/
def requiredKinds (cfg : CriteriaConfig) : List String :=
  (enabledCrits cfg).map kindName

/-! ### Criterion evaluators

Each evaluator examines one ordered pair drawn from the `i < j` nested loops
and emits at most one candidate edge.  `evalPairs` replays the loop structure.
-/

/-- Topic set of a node on the build-from-scratch path:
`set(topics.split('|')) if topics else set()` — note no empty-token discard. -/
def topicsOfBuild (n : Node) : List String :=
  if n.topics == "" then [] else (pySplit n.topics '|').dedup

/-- Topic set of a node on the rebuild path
(`_generate_topic_based_edges_from_graph`):
split on `'|'`, then `discard('')`. -/
def topicsOfGraph (n : Node) : List String :=
  ((pySplit n.topics '|').dedup).filter (fun t => t != "")

/-- Pair step of `_generate_topic_based_edges` (build path): emits whenever the
shared-topic set is non-empty; `topic_threshold` is not consulted. -/
def emitTopicBuild (a b : Node) : Option CandidateEdge :=
  let shared := pyInter (topicsOfBuild a) (topicsOfBuild b)
  if shared.isEmpty then none
  else some ⟨a.id, b.id, "topic_based", "shared_topics", shared, shared.length⟩

/-- Pair step of `_generate_topic_based_edges_from_graph` (rebuild path):
guarded by both topic strings being non-empty, then `|shared| >= threshold`. -/
def emitTopicGraph (threshold : Nat) (a b : Node) : Option CandidateEdge :=
  if a.topics != "" && b.topics != "" then
    let shared := pyInter (topicsOfGraph a) (topicsOfGraph b)
    if threshold ≤ shared.length then
      some ⟨a.id, b.id, "topic_based", "shared_topics", shared, shared.length⟩
    else none
  else none

/-- Pair step of `_generate_contributor_overlap_edges` (build path). -/
def emitContributorBuild (threshold : Nat) (a b : Node) : Option CandidateEdge :=
  let shared := pyInter (parseListString a.contributors) (parseListString b.contributors)
  if threshold ≤ shared.length then
    some ⟨a.id, b.id, "contributor_overlap", "shared_contributors", shared, shared.length⟩
  else none

/-- Pair step of `_generate_contributor_overlap_edges_from_graph` (rebuild
path): additionally guarded by both contributor strings being non-empty. -/
def emitContributorGraph (threshold : Nat) (a b : Node) : Option CandidateEdge :=
  if a.contributors != "" && b.contributors != "" then
    let shared := pyInter (parseListString a.contributors) (parseListString b.contributors)
    if threshold ≤ shared.length then
      some ⟨a.id, b.id, "contributor_overlap", "shared_contributors", shared, shared.length⟩
    else none
  else none

/-- Python `repo.split('/')[0] if '/' in repo else None`, with `None` and the
falsy empty string both modelled as `""`. -/
def orgOf (s : String) : String :=
  if s.data.contains '/' then (pySplit s '/').headD "" else ""

/-- Pair step of `_generate_shared_organization_edges` (identical logic in the
build and rebuild variants): both organizations must exist (be truthy) and be
equal. -/
def emitSharedOrganization (a b : Node) : Option CandidateEdge :=
  let org1 := orgOf a.id
  let org2 := orgOf b.id
  if org1 != "" && org2 != "" && org1 == org2 then
    some ⟨a.id, b.id, "shared_organization", "organization", [org1], 1⟩
  else none

/-- Pair step of `_generate_stargazer_overlap_edges` (build path). -/
def emitStarBuild (threshold : Nat) (a b : Node) : Option CandidateEdge :=
  let shared := pyInter (parseListString a.stargazers) (parseListString b.stargazers)
  if threshold ≤ shared.length then
    some ⟨a.id, b.id, "stargazer_overlap", "shared_stargazers", shared, shared.length⟩
  else none

/-- Pair step of `_generate_stargazer_overlap_edges_from_graph` (rebuild
path). -/
def emitStarGraph (threshold : Nat) (a b : Node) : Option CandidateEdge :=
  if a.stargazers != "" && b.stargazers != "" then
    let shared := pyInter (parseListString a.stargazers) (parseListString b.stargazers)
    if threshold ≤ shared.length then
      some ⟨a.id, b.id, "stargazer_overlap", "shared_stargazers", shared, shared.length⟩
    else none
  else none

/-- All ordered pairs `(l[i], l[j])` with `i < j`, in the order the Python
nested loops `for i, ...: for j in range(i+1, ...)` visit them. -/
def listPairs : List α → List (α × α)
  | [] => []
  | x :: xs => (xs.map (fun y => (x, y))) ++ listPairs xs

/-- Run one evaluator over every `i < j` pair of the node list. -/
def evalPairs (emit : Node → Node → Option CandidateEdge) (nodes : List Node) :
    List CandidateEdge :=
  (listPairs nodes).filterMap (fun p => emit p.1 p.2)

/-- Pair step of each criterion on the build-from-scratch path, with the
thresholds `generate_edges_with_criteria` reads from the config. -/
def emitBuild (cfg : CriteriaConfig) : Crit → Node → Node → Option CandidateEdge
  | .topic => emitTopicBuild
  | .contrib => emitContributorBuild cfg.contributor_overlap_threshold
  | .org => emitSharedOrganization
  | .star => emitStarBuild cfg.stargazer_overlap_threshold

/-- Pair step of each criterion on the rebuild path, with the thresholds
`create_edges_on_existing_graph` reads from the config. -/
def emitGraph (cfg : CriteriaConfig) : Crit → Node → Node → Option CandidateEdge
  | .topic => emitTopicGraph cfg.topic_threshold
  | .contrib => emitContributorGraph cfg.contributor_threshold
  | .org => emitSharedOrganization
  | .star => emitStarGraph cfg.stargazer_threshold

/-- `all_edges` accumulated by `generate_edges_with_criteria`: the
concatenation, in evaluation order, of each enabled evaluator's output. -/
def allCandidatesBuild (cfg : CriteriaConfig) (nodes : List Node) : List CandidateEdge :=
  (enabledCrits cfg).flatMap (fun c => evalPairs (emitBuild cfg c) nodes)

/-- `all_edges` accumulated by `create_edges_on_existing_graph`. -/
def allCandidatesGraph (cfg : CriteriaConfig) (nodes : List Node) : List CandidateEdge :=
  (enabledCrits cfg).flatMap (fun c => evalPairs (emitGraph cfg c) nodes)

/-! ### Combination engine -/

/-- Merged evidence of a candidate group at evidence key `k`
(`shared_data[key]` accumulation followed by `list(set(...))`). -/
def mergedEvidenceAt (edges : List CandidateEdge) (k : String) : List String :=
  ((edges.filter (fun e => e.evKey == k)).flatMap (fun e => e.evVal)).dedup

/-- Shallow embedding of `_create_combined_edge`: repository pair from the
first candidate, `criteria_satisfied` in input order, evidence de-duplicated
per key, weight summed.  Returns `none` on an empty group, as the Python
function returns `None`. -/
def createCombinedEdge (edges : List CandidateEdge) : Option CombinedEdge :=
  match edges with
  | [] => none
  | e :: _ =>
    some
      { repo1 := e.repo1
        repo2 := e.repo2
        criteria_satisfied := edges.map (fun x => x.edge_type)
        evidence := ((edges.map (fun x => x.evKey)).dedup).map
          (fun k => (k, mergedEvidenceAt edges k))
        weight := (edges.map (fun x => x.weight)).sum }

/-- The candidates of `all_edges` grouped under pair key `k`
(`edge_groups[edge_key]`, in insertion order). -/
def groupFor (all_edges : List CandidateEdge) (k : String × String) : List CandidateEdge :=
  all_edges.filter (fun e => ckey e == k)

/-- The distinct pair keys of `all_edges` (`edge_groups` key set). -/
def pairKeys (all_edges : List CandidateEdge) : List (String × String) :=
  (all_edges.map ckey).dedup

/-- Per-pair decision of `_apply_combination_logic`: a sole candidate is kept
as-is, a larger group is merged by `_create_combined_edge`. -/
def orStep (all_edges : List CandidateEdge) (k : String × String) : Option FinalEdge :=
  let g := groupFor all_edges k
  if g.length == 1 then (g.head?).map FinalEdge.single
  else (createCombinedEdge g).map FinalEdge.combined

/-- Shallow embedding of `_apply_combination_logic` (OR semantics): one final
edge per populated pair group — the sole candidate promoted as-is, or the
merged combined edge. -/
def applyCombinationLogic (all_edges : List CandidateEdge) : List FinalEdge :=
  if all_edges.isEmpty then []
  else (pairKeys all_edges).filterMap (orStep all_edges)

/-- Per-pair decision of `_apply_strict_and_logic` (multi-criteria case): keep
and merge the group only when its satisfied kinds form a superset of the
required kinds. -/
def strictStep (cfg : CriteriaConfig) (all_edges : List CandidateEdge)
    (k : String × String) : Option FinalEdge :=
  let g := groupFor all_edges k
  let sat := g.map (fun e => e.edge_type)
  if (requiredKinds cfg).all (fun r => sat.contains r) then
    (createCombinedEdge g).map FinalEdge.combined
  else none

/-- Shallow embedding of `_apply_strict_and_logic`: with at most one enabled
criterion the candidate list is returned unchanged (`return all_edges`);
otherwise pair groups pass through `strictStep`. -/
def applyStrictAndLogic (all_edges : List CandidateEdge) (cfg : CriteriaConfig) :
    List FinalEdge :=
  if all_edges.isEmpty then []
  else if enabledCount cfg ≤ 1 then all_edges.map FinalEdge.single
  else (pairKeys all_edges).filterMap (strictStep cfg all_edges)

/-- Per-pair decision of `_apply_flexible_and_logic` (multi-criteria case):
keep and merge the group only when its number of distinct satisfied kinds
reaches the minimum. -/
def flexStep (minReq : Nat) (all_edges : List CandidateEdge)
    (k : String × String) : Option FinalEdge :=
  let g := groupFor all_edges k
  if minReq ≤ ((g.map (fun e => e.edge_type)).dedup).length then
    (createCombinedEdge g).map FinalEdge.combined
  else none

/-- Shallow embedding of `_apply_flexible_and_logic`: with at most one enabled
criterion the candidate list is returned unchanged (`return all_edges`);
otherwise pair groups pass through `flexStep` with `min_criteria_required`
(or the full enabled count under `strict_and_logic`). -/
def applyFlexibleAndLogic (all_edges : List CandidateEdge) (cfg : CriteriaConfig) :
    List FinalEdge :=
  if all_edges.isEmpty then []
  else if enabledCount cfg ≤ 1 then all_edges.map FinalEdge.single
  else
    let minReq := if cfg.strict_and_logic then enabledCount cfg else cfg.min_criteria_required
    (pairKeys all_edges).filterMap (flexStep minReq all_edges)

/-- The combination-policy dispatch shared by both entry points: strict AND,
then flexible AND, then `use_and_logic` (OR logic filtered to combined edges),
then plain OR. -/
def finalDispatch (cfg : CriteriaConfig) (all_edges : List CandidateEdge) :
    List FinalEdge :=
  if cfg.strict_and_logic then applyStrictAndLogic all_edges cfg
  else if 1 < cfg.min_criteria_required then applyFlexibleAndLogic all_edges cfg
  else if cfg.use_and_logic then
    (applyCombinationLogic all_edges).filter (fun f => ftype f == "combined")
  else applyCombinationLogic all_edges

/-- Final edges of the build-from-scratch pipeline: enabled evaluators, then
the combination dispatch. -/
def pipelineBuild (cfg : CriteriaConfig) (nodes : List Node) : List FinalEdge :=
  finalDispatch cfg (allCandidatesBuild cfg nodes)

/-- Final edges of the rebuild pipeline. -/
def pipelineGraph (cfg : CriteriaConfig) (nodes : List Node) : List FinalEdge :=
  finalDispatch cfg (allCandidatesGraph cfg nodes)

/-- Whether a criterion's pair predicate holds on the build path (the
criterion's evaluator would emit a candidate for this pair). -/
def critHoldsBuild (cfg : CriteriaConfig) (crit : Crit) (a b : Node) : Bool :=
  (emitBuild cfg crit a b).isSome

/-! ### Graph mutator and entry points -/

/-- An edge as stored on the NetworkX graph after the cleaning step of the two
entry points: every list attribute pipe-joined into a string. -/
structure GEdge where
  u : String
  v : String
  edge_type : String
  criteria_satisfied : String
  evidence : List (String × String)
  weight : Nat
deriving DecidableEq

/-- A graph value: nodes with attributes plus undirected attributed edges. -/
structure Graph where
  nodes : List Node
  edges : List GEdge
deriving DecidableEq

/-- The edge-data cleaning loop of the entry points: list values are joined
with `'|'` before the edge is added to the graph.  A single candidate has no
`criteria_satisfied` attribute; its absence is modelled as `""`. -/
def cleanFinalEdge : FinalEdge → GEdge
  | .single e =>
    { u := e.repo1, v := e.repo2, edge_type := e.edge_type, criteria_satisfied := ""
      evidence := [(e.evKey, joinPipe e.evVal)], weight := e.weight }
  | .combined c =>
    { u := c.repo1, v := c.repo2, edge_type := "combined"
      criteria_satisfied := joinPipe c.criteria_satisfied
      evidence := c.evidence.map (fun kv => (kv.1, joinPipe kv.2)), weight := c.weight }

/-- Result value of `create_edges_on_existing_graph`: either the
`{'message': ...}` dictionary or the statistics dictionary (modelled by the
fields the claims observe). -/
inductive CreateResult where
  | message : String → CreateResult
  | stats : Nat → Nat → CreateResult
deriving DecidableEq

/-- Shallow embedding of `create_edges_on_existing_graph`.  The mutated graph
is returned alongside the result (explicit state passing for the in-place
NetworkX mutation); a raised `ValueError` is the `Except.error` case. -/
def createEdgesOnExistingGraph (G : Graph) (cfg : CriteriaConfig) :
    Except String (Graph × CreateResult) :=
  if enabledCrits cfg == [] then
    Except.error "At least one edge creation criterion must be enabled"
  else
    let G1 : Graph := { G with edges := [] }
    let nodes := G1.nodes
    if nodes.length < 2 then
      Except.ok (G1, CreateResult.message "Not enough nodes to create edges")
    else
      let finals := pipelineGraph cfg nodes
      let G2 : Graph := { G1 with edges := finals.map cleanFinalEdge }
      Except.ok (G2, CreateResult.stats G2.edges.length G2.nodes.length)

/-- Shallow embedding of `generate_edges_with_criteria`, taking the repository
records returned by the (external) corpus accessor as input.  Note: this entry
point performs no validation of the enabling flags — it never raises. -/
def generateEdgesWithCriteria (repos : List Node) (cfg : CriteriaConfig) :
    Except String (Graph × Nat) :=
  if repos.isEmpty then Except.ok ({ nodes := [], edges := [] }, 0)
  else
    let finals := pipelineBuild cfg repos
    Except.ok ({ nodes := repos, edges := finals.map cleanFinalEdge }, finals.length)

/-! ### Statistics reporter -/

/-- One step of the Python dict-count idiom
`d[key] = d.get(key, 0) + 1` on an association list. -/
def bump : List (String × Nat) → String → List (String × Nat)
  | [], k => [(k, 1)]
  | (k', n) :: rest, k =>
    if k' == k then (k', n + 1) :: rest else (k', n) :: bump rest k

/-- Python `d.get(k, 0)` on an association list. -/
def lookupCount : List (String × Nat) → String → Nat
  | [], _ => 0
  | (k', n) :: rest, k => if k' == k then n else lookupCount rest k

/-- Degree of a node identifier in the edge list. -/
def degreeOf (edges : List GEdge) (v : String) : Nat :=
  edges.countP (fun e => e.u == v || e.v == v)

/-- `sum(dict(G.degree()).values())`. -/
def degreeSum (G : Graph) : Nat :=
  (G.nodes.map (fun n => degreeOf G.edges n.id)).sum

/-- The key under which a combined edge is tallied by the secondary breakdown:
split the cleaned `criteria_satisfied` string, sort, re-join with `'|'`. -/
def combinedKey (e : GEdge) : String :=
  joinPipe (sortStrings (pySplit e.criteria_satisfied '|'))

/-- Shallow embedding of `networkx.density` for undirected graphs. -/
def nxDensity (n m : Nat) : ℚ :=
  if m == 0 || n ≤ 1 then 0 else 2 * (m : ℚ) / ((n : ℚ) * ((n : ℚ) - 1))

/-- The statistics record built by `get_detailed_edge_statistics` when the
graph has edges.  The `connected_components` entry delegates to the external
graph library and is not constrained by any claim, so it is omitted from the
embedding. -/
structure DetailedStats where
  total_nodes : Nat
  total_edges : Nat
  edge_type_breakdown : List (String × Nat)
  combined_edge_breakdown : List (String × Nat)
  average_degree : ℚ
  density : ℚ
  percentage_combined : ℚ
deriving DecidableEq

/-- Result of `get_detailed_edge_statistics`: the message dictionary for an
edgeless graph, the statistics record otherwise. -/
inductive StatsResult where
  | message : String → StatsResult
  | stats : DetailedStats → StatsResult
deriving DecidableEq

/-- Shallow embedding of `get_detailed_edge_statistics`. -/
def getDetailedEdgeStatistics (G : Graph) : StatsResult :=
  if G.edges.isEmpty then StatsResult.message "No edges generated"
  else
    let edge_types := G.edges.foldl (fun m e => bump m e.edge_type) []
    let combined_edges := G.edges.foldl
      (fun m e => if e.edge_type == "combined" then bump m (combinedKey e) else m) []
    let total_edges := G.edges.length
    let total_nodes := G.nodes.length
    StatsResult.stats
      { total_nodes := total_nodes
        total_edges := total_edges
        edge_type_breakdown := edge_types
        combined_edge_breakdown := combined_edges
        average_degree :=
          if 0 < total_nodes then (degreeSum G : ℚ) / (total_nodes : ℚ) else 0
        density := nxDensity total_nodes total_edges
        percentage_combined :=
          if 0 < total_edges then
            (lookupCount edge_types "combined" : ℚ) / (total_edges : ℚ) * 100
          else 0 }

/-! ### Order and pair-key lemmas -/

theorem charListLe_total (x y : List Char) :
    charListLe x y = true ∨ charListLe y x = true := by
  induction x generalizing y with
  | nil => left; rfl
  | cons c cs ih =>
    cases y with
    | nil => right; rfl
    | cons d ds =>
      by_cases h1 : c.toNat < d.toNat
      · left; simp [charListLe, h1]
      · by_cases h2 : d.toNat < c.toNat
        · right; simp [charListLe, h2]
        · rcases ih ds with h | h
          · left; simp [charListLe, h1, h2, h]
          · right; simp [charListLe, h1, h2, h]

theorem charListLe_antisymm {x y : List Char} (hxy : charListLe x y = true)
    (hyx : charListLe y x = true) : x = y := by
  induction x generalizing y with
  | nil =>
    cases y with
    | nil => rfl
    | cons d ds => simp [charListLe] at hyx
  | cons c cs ih =>
    cases y with
    | nil => simp [charListLe] at hxy
    | cons d ds =>
      by_cases h1 : c.toNat < d.toNat
      · simp [charListLe, h1, Nat.lt_asymm h1, Nat.ne_of_lt h1] at hyx
      · by_cases h2 : d.toNat < c.toNat
        · simp [charListLe, h1, h2] at hxy
        · have hcd : c = d := by
            have hn : c.toNat = d.toNat := Nat.le_antisymm (Nat.le_of_not_lt h2) (Nat.le_of_not_lt h1)
            have : c.val = d.val := UInt32.toNat.inj hn
            exact Char.ext this
          subst hcd
          simp [charListLe, h1, h2] at hxy hyx
          rw [ih hxy hyx]

theorem strLe_total (x y : String) : strLe x y = true ∨ strLe y x = true :=
  charListLe_total x.data y.data

theorem strLe_antisymm {x y : String} (hxy : strLe x y = true)
    (hyx : strLe y x = true) : x = y :=
  String.ext (charListLe_antisymm hxy hyx)

theorem pairKey_comm (x y : String) : pairKey x y = pairKey y x := by
  unfold pairKey
  by_cases hxy : strLe x y = true
  · by_cases hyx : strLe y x = true
    · simp [hxy, hyx, strLe_antisymm hxy hyx]
    · simp [hxy, hyx]
  · rcases strLe_total x y with h | h
    · exact absurd h hxy
    · simp [hxy, h]

theorem pairKey_eq_iff {x y u v : String} :
    pairKey x y = pairKey u v ↔ (x = u ∧ y = v) ∨ (x = v ∧ y = u) := by
  constructor
  · intro h
    unfold pairKey at h
    by_cases h1 : strLe x y = true <;> by_cases h2 : strLe u v = true <;>
      simp only [h1, h2, if_true, if_false, Bool.false_eq_true, if_neg,
        Prod.mk.injEq] at h <;> tauto
  · rintro (⟨hx, hy⟩ | ⟨hx, hy⟩)
    · rw [hx, hy]
    · rw [hx, hy, pairKey_comm]

/-! ### Pair-enumeration lemmas -/

theorem mem_of_mem_listPairs {l : List α} {p : α × α} (h : p ∈ listPairs l) :
    p.1 ∈ l ∧ p.2 ∈ l := by
  induction l with
  | nil => simp [listPairs] at h
  | cons x xs ih =>
    simp only [listPairs, List.mem_append, List.mem_map] at h
    rcases h with ⟨y, hy, rfl⟩ | h
    · exact ⟨List.mem_cons_self x xs, List.mem_cons_of_mem x hy⟩
    · exact ⟨List.mem_cons_of_mem x (ih h).1, List.mem_cons_of_mem x (ih h).2⟩

theorem listPairs_or_mem {l : List α} {a b : α} (ha : a ∈ l) (hb : b ∈ l)
    (hab : a ≠ b) : (a, b) ∈ listPairs l ∨ (b, a) ∈ listPairs l := by
  induction l with
  | nil => simp at ha
  | cons x xs ih =>
    rcases List.mem_cons.mp ha with rfl | ha'
    · have hb' : b ∈ xs := by
        rcases List.mem_cons.mp hb with rfl | hb'
        · exact absurd rfl hab
        · exact hb'
      left
      exact List.mem_append_left _ (List.mem_map_of_mem (fun y => (a, y)) hb')
    · rcases List.mem_cons.mp hb with rfl | hb'
      · right
        exact List.mem_append_left _ (List.mem_map_of_mem (fun y => (b, y)) ha')
      · rcases ih ha' hb' with h | h
        · exact Or.inl (List.mem_append_right _ h)
        · exact Or.inr (List.mem_append_right _ h)

theorem pairwise_ne_of_nodup_map {l : List α} {f : α → β}
    (h : (l.map f).Nodup) : l.Pairwise (fun a b => f a ≠ f b) := by
  induction l with
  | nil => exact List.Pairwise.nil
  | cons x xs ih =>
    simp only [List.map_cons, List.nodup_cons] at h
    refine List.Pairwise.cons ?_ (ih h.2)
    intro y hy hcontra
    exact h.1 (hcontra ▸ List.mem_map_of_mem f hy)

theorem listPairs_pairwise_keys {l : List Node}
    (hnd : (l.map Node.id).Nodup) :
    (listPairs l).Pairwise
      (fun p q => pairKey p.1.id p.2.id ≠ pairKey q.1.id q.2.id) := by
  induction l with
  | nil => exact List.Pairwise.nil
  | cons x xs ih =>
    have hx : x.id ∉ xs.map Node.id := by
      simp only [List.map_cons, List.nodup_cons] at hnd
      exact hnd.1
    have hxs : (xs.map Node.id).Nodup := by
      simp only [List.map_cons, List.nodup_cons] at hnd
      exact hnd.2
    simp only [listPairs]
    rw [List.pairwise_append]
    refine ⟨?_, ih hxs, ?_⟩
    · -- within the block of pairs headed by x
      have hpw : xs.Pairwise (fun a b => a.id ≠ b.id) := pairwise_ne_of_nodup_map hxs
      rw [List.pairwise_map]
      refine hpw.imp ?_
      intro a b hab hcontra
      rcases pairKey_eq_iff.mp hcontra with ⟨_, h2⟩ | ⟨h1, h2⟩
      · exact hab h2
      · exact hab (h2.trans h1)
    · -- across: a pair headed by x versus a pair inside xs
      rintro ⟨p1, p2⟩ hp ⟨q1, q2⟩ hq
      simp only [List.mem_map] at hp
      rcases hp with ⟨y, _, heq⟩
      have hp1 : p1 = x := by cases heq; rfl
      subst hp1
      have hq12 := mem_of_mem_listPairs hq
      intro hcontra
      rcases pairKey_eq_iff.mp hcontra with ⟨h1, _⟩ | ⟨h1, _⟩
      · exact hx (h1 ▸ List.mem_map_of_mem Node.id hq12.1)
      · exact hx (h1 ▸ List.mem_map_of_mem Node.id hq12.2)

/-! ### Generic `filterMap` bookkeeping lemmas -/

theorem pairwise_filterMap_of {l : List α} {R : α → α → Prop} {S : β → β → Prop}
    {g : α → Option β}
    (hg : ∀ a b, R a b → ∀ x, g a = some x → ∀ y, g b = some y → S x y)
    (h : l.Pairwise R) : (l.filterMap g).Pairwise S := by
  induction l with
  | nil => exact List.Pairwise.nil
  | cons a l ih =>
    rcases List.pairwise_cons.mp h with ⟨hrel, htail⟩
    cases hga : g a with
    | none => simpa [List.filterMap_cons, hga] using ih htail
    | some x =>
      simp only [List.filterMap_cons, hga]
      refine List.Pairwise.cons ?_ (ih htail)
      intro y hy
      rcases List.mem_filterMap.mp hy with ⟨b, hb, hgb⟩
      exact hg a b (hrel b hb) x hga y hgb

theorem filter_key_length_le_one {l : List α} {key : α → β} [BEq β] [LawfulBEq β]
    (h : l.Pairwise (fun a b => key a ≠ key b)) (k : β) :
    (l.filter (fun a => key a == k)).length ≤ 1 := by
  induction l with
  | nil => simp
  | cons x xs ih =>
    rcases List.pairwise_cons.mp h with ⟨hrel, htail⟩
    by_cases hx : key x = k
    · have hnone : xs.filter (fun a => key a == k) = [] := by
        rw [List.filter_eq_nil_iff]
        intro a ha
        simp only [beq_iff_eq]
        exact fun hk => hrel a ha (hx ▸ hk ▸ rfl)
      simp [List.filter_cons, hx, hnone]
    · simpa [List.filter_cons, hx] using ih htail

theorem exists_key_filterMap {keys : List (String × String)}
    {h : String × String → Option FinalEdge}
    (hkey : ∀ k f, h k = some f → fkey f = k) (k : String × String) :
    (∃ f ∈ keys.filterMap h, fkey f = k) ↔ k ∈ keys ∧ (h k).isSome = true := by
  constructor
  · rintro ⟨f, hf, hfk⟩
    rcases List.mem_filterMap.mp hf with ⟨k', hk', hhk'⟩
    have := hkey k' f hhk'
    rw [this] at hfk
    subst hfk
    exact ⟨hk', by rw [hhk']; rfl⟩
  · rintro ⟨hk, hsome⟩
    rcases Option.isSome_iff_exists.mp hsome with ⟨f, hf⟩
    exact ⟨f, List.mem_filterMap.mpr ⟨k, hk, hf⟩, hkey k f hf⟩

theorem count_key_filterMap {keys : List (String × String)}
    {h : String × String → Option FinalEdge}
    (hnd : keys.Nodup) (hkey : ∀ k f, h k = some f → fkey f = k)
    (k : String × String) :
    ((keys.filterMap h).filter (fun f => fkey f == k)).length ≤ 1 := by
  refine @filter_key_length_le_one _ _ _ fkey _ _ ?_ k
  refine @pairwise_filterMap_of _ _ _ (fun a b => a ≠ b) _ _ ?_ hnd
  intro a b hab x hx y hy
  rw [hkey a x hx, hkey b y hy]
  exact hab

/-! ### Python-set lemmas -/

theorem mem_pyInter {a b : List String} {x : String} :
    x ∈ pyInter a b ↔ x ∈ a ∧ x ∈ b := by
  simp [pyInter, List.mem_filter, List.mem_dedup]

theorem pyInter_nodup (a b : List String) : (pyInter a b).Nodup :=
  List.Nodup.filter _ (List.nodup_dedup a)

theorem toFinset_eq_of_mem_iff {l l' : List String}
    (h : ∀ x, x ∈ l ↔ x ∈ l') : l.toFinset = l'.toFinset := by
  ext x
  simp only [List.mem_toFinset]
  exact h x

theorem length_eq_of_nodup_mem_iff {l l' : List String} (hl : l.Nodup)
    (hl' : l'.Nodup) (h : ∀ x, x ∈ l ↔ x ∈ l') : l.length = l'.length := by
  rw [← List.toFinset_card_of_nodup hl, ← List.toFinset_card_of_nodup hl',
    toFinset_eq_of_mem_iff h]

theorem pyInter_length_comm (a b : List String) :
    (pyInter a b).length = (pyInter b a).length := by
  refine length_eq_of_nodup_mem_iff (pyInter_nodup a b) (pyInter_nodup b a) ?_
  intro x
  rw [mem_pyInter, mem_pyInter]
  tauto

/-! ### Evaluator characterization: emitted candidate fields -/

theorem emitTopicBuild_fields {x y : Node} {c : CandidateEdge}
    (h : emitTopicBuild x y = some c) :
    c.repo1 = x.id ∧ c.repo2 = y.id ∧ c.edge_type = "topic_based" := by
  simp only [emitTopicBuild] at h
  split at h
  · exact absurd h (by simp)
  · injection h with h'
    subst h'
    exact ⟨rfl, rfl, rfl⟩

theorem emitContributorBuild_fields {t : Nat} {x y : Node} {c : CandidateEdge}
    (h : emitContributorBuild t x y = some c) :
    c.repo1 = x.id ∧ c.repo2 = y.id ∧ c.edge_type = "contributor_overlap" := by
  simp only [emitContributorBuild] at h
  split at h
  · injection h with h'
    subst h'
    exact ⟨rfl, rfl, rfl⟩
  · exact absurd h (by simp)

theorem emitSharedOrganization_fields {x y : Node} {c : CandidateEdge}
    (h : emitSharedOrganization x y = some c) :
    c.repo1 = x.id ∧ c.repo2 = y.id ∧ c.edge_type = "shared_organization" := by
  simp only [emitSharedOrganization] at h
  split at h
  · injection h with h'
    subst h'
    exact ⟨rfl, rfl, rfl⟩
  · exact absurd h (by simp)

theorem emitStarBuild_fields {t : Nat} {x y : Node} {c : CandidateEdge}
    (h : emitStarBuild t x y = some c) :
    c.repo1 = x.id ∧ c.repo2 = y.id ∧ c.edge_type = "stargazer_overlap" := by
  simp only [emitStarBuild] at h
  split at h
  · injection h with h'
    subst h'
    exact ⟨rfl, rfl, rfl⟩
  · exact absurd h (by simp)

theorem emitTopicGraph_fields {t : Nat} {x y : Node} {c : CandidateEdge}
    (h : emitTopicGraph t x y = some c) :
    c.repo1 = x.id ∧ c.repo2 = y.id ∧ c.edge_type = "topic_based" := by
  simp only [emitTopicGraph] at h
  split at h
  · split at h
    · injection h with h'
      subst h'
      exact ⟨rfl, rfl, rfl⟩
    · exact absurd h (by simp)
  · exact absurd h (by simp)

theorem emitContributorGraph_fields {t : Nat} {x y : Node} {c : CandidateEdge}
    (h : emitContributorGraph t x y = some c) :
    c.repo1 = x.id ∧ c.repo2 = y.id ∧ c.edge_type = "contributor_overlap" := by
  simp only [emitContributorGraph] at h
  split at h
  · split at h
    · injection h with h'
      subst h'
      exact ⟨rfl, rfl, rfl⟩
    · exact absurd h (by simp)
  · exact absurd h (by simp)

theorem emitStarGraph_fields {t : Nat} {x y : Node} {c : CandidateEdge}
    (h : emitStarGraph t x y = some c) :
    c.repo1 = x.id ∧ c.repo2 = y.id ∧ c.edge_type = "stargazer_overlap" := by
  simp only [emitStarGraph] at h
  split at h
  · split at h
    · injection h with h'
      subst h'
      exact ⟨rfl, rfl, rfl⟩
    · exact absurd h (by simp)
  · exact absurd h (by simp)

theorem emitBuild_fields {cfg : CriteriaConfig} {crit : Crit} {x y : Node}
    {c : CandidateEdge} (h : emitBuild cfg crit x y = some c) :
    c.repo1 = x.id ∧ c.repo2 = y.id ∧ c.edge_type = kindName crit := by
  cases crit
  · exact emitTopicBuild_fields h
  · exact emitContributorBuild_fields h
  · exact emitSharedOrganization_fields h
  · exact emitStarBuild_fields h

theorem emitGraph_fields {cfg : CriteriaConfig} {crit : Crit} {x y : Node}
    {c : CandidateEdge} (h : emitGraph cfg crit x y = some c) :
    c.repo1 = x.id ∧ c.repo2 = y.id ∧ c.edge_type = kindName crit := by
  cases crit
  · exact emitTopicGraph_fields h
  · exact emitContributorGraph_fields h
  · exact emitSharedOrganization_fields h
  · exact emitStarGraph_fields h

/-! ### Evaluator characterization: when candidates are emitted -/

theorem emitTopicBuild_isSome (a b : Node) :
    (emitTopicBuild a b).isSome = true ↔
      1 ≤ (pyInter (topicsOfBuild a) (topicsOfBuild b)).length := by
  simp only [emitTopicBuild]
  split <;> rename_i hcond
  · rw [List.isEmpty_iff] at hcond
    simp [hcond]
  · rw [List.isEmpty_iff] at hcond
    simpa using List.length_pos.mpr hcond

theorem emitContributorBuild_isSome (t : Nat) (a b : Node) :
    (emitContributorBuild t a b).isSome = true ↔
      t ≤ (pyInter (parseListString a.contributors) (parseListString b.contributors)).length := by
  simp only [emitContributorBuild]
  split <;> rename_i hcond <;> simp [hcond]

theorem emitStarBuild_isSome (t : Nat) (a b : Node) :
    (emitStarBuild t a b).isSome = true ↔
      t ≤ (pyInter (parseListString a.stargazers) (parseListString b.stargazers)).length := by
  simp only [emitStarBuild]
  split <;> rename_i hcond <;> simp [hcond]

theorem emitSharedOrganization_isSome (a b : Node) :
    (emitSharedOrganization a b).isSome = true ↔
      orgOf a.id ≠ "" ∧ orgOf b.id ≠ "" ∧ orgOf a.id = orgOf b.id := by
  simp only [emitSharedOrganization]
  split <;> rename_i hcond
  · simp only [Option.isSome_some, true_iff]
    have := by simpa [Bool.and_eq_true, bne_iff_ne, beq_iff_eq] using hcond
    tauto
  · simp only [Option.isSome_none, Bool.false_eq_true, false_iff]
    intro hcontra
    apply hcond
    simp only [Bool.and_eq_true, bne_iff_ne, beq_iff_eq]
    tauto

theorem critHoldsBuild_symm (cfg : CriteriaConfig) (crit : Crit) (a b : Node) :
    critHoldsBuild cfg crit a b = critHoldsBuild cfg crit b a := by
  unfold critHoldsBuild
  rw [Bool.eq_iff_iff]
  cases crit
  · rw [emitBuild, emitTopicBuild_isSome, emitTopicBuild_isSome,
      pyInter_length_comm]
  · rw [emitBuild, emitContributorBuild_isSome, emitContributorBuild_isSome,
      pyInter_length_comm]
  · rw [emitBuild, emitSharedOrganization_isSome, emitSharedOrganization_isSome]
    tauto
  · rw [emitBuild, emitStarBuild_isSome, emitStarBuild_isSome,
      pyInter_length_comm]

theorem kindName_injective : Function.Injective kindName := by
  intro c c' h
  cases c <;> cases c' <;> first
    | rfl
    | exact absurd h (by simp [kindName])

theorem enabledCrits_nodup (cfg : CriteriaConfig) : (enabledCrits cfg).Nodup :=
  List.Nodup.filter _ (by decide)

/-! ### Candidate pool characterization at a fixed unordered pair -/

theorem mem_allCandidatesBuild {cfg : CriteriaConfig} {nodes : List Node}
    {c : CandidateEdge} :
    c ∈ allCandidatesBuild cfg nodes ↔
      ∃ crit ∈ enabledCrits cfg, ∃ p ∈ listPairs nodes,
        emitBuild cfg crit p.1 p.2 = some c := by
  simp only [allCandidatesBuild, List.mem_flatMap, evalPairs, List.mem_filterMap]

theorem cand_key_type_iff {cfg : CriteriaConfig} {nodes : List Node} {a b : Node}
    (hnd : (nodes.map Node.id).Nodup) (ha : a ∈ nodes) (hb : b ∈ nodes)
    (hab : a.id ≠ b.id) (s : String) :
    (∃ c ∈ allCandidatesBuild cfg nodes,
        ckey c = pairKey a.id b.id ∧ c.edge_type = s) ↔
      ∃ crit ∈ enabledCrits cfg,
        critHoldsBuild cfg crit a b = true ∧ kindName crit = s := by
  constructor
  · rintro ⟨c, hc, hkey, htype⟩
    rcases mem_allCandidatesBuild.mp hc with ⟨crit, hcrit, p, hp, hemit⟩
    obtain ⟨h1, h2, h3⟩ := emitBuild_fields hemit
    have hxy := mem_of_mem_listPairs hp
    have hkey' : pairKey p.1.id p.2.id = pairKey a.id b.id := by
      rw [← h1, ← h2]
      exact hkey
    have hholds : critHoldsBuild cfg crit p.1 p.2 = true := by
      unfold critHoldsBuild
      rw [hemit]
      rfl
    rcases pairKey_eq_iff.mp hkey' with ⟨hpa, hpb⟩ | ⟨hpa, hpb⟩
    · have hpa' : p.1 = a := List.inj_on_of_nodup_map hnd hxy.1 ha hpa
      have hpb' : p.2 = b := List.inj_on_of_nodup_map hnd hxy.2 hb hpb
      rw [hpa', hpb'] at hholds
      exact ⟨crit, hcrit, hholds, h3 ▸ htype⟩
    · have hpa' : p.1 = b := List.inj_on_of_nodup_map hnd hxy.1 hb hpa
      have hpb' : p.2 = a := List.inj_on_of_nodup_map hnd hxy.2 ha hpb
      rw [hpa', hpb'] at hholds
      rw [critHoldsBuild_symm] at hholds
      exact ⟨crit, hcrit, hholds, h3 ▸ htype⟩
  · rintro ⟨crit, hcrit, hholds, hname⟩
    have hne : a ≠ b := fun h => hab (h ▸ rfl)
    rcases listPairs_or_mem ha hb hne with hmem | hmem
    · rcases Option.isSome_iff_exists.mp hholds with ⟨c, hc⟩
      obtain ⟨h1, h2, h3⟩ := emitBuild_fields hc
      refine ⟨c, mem_allCandidatesBuild.mpr ⟨crit, hcrit, (a, b), hmem, hc⟩, ?_, ?_⟩
      · unfold ckey
        rw [h1, h2]
      · rw [h3, hname]
    · have hholds' : critHoldsBuild cfg crit b a = true := by
        rw [← critHoldsBuild_symm]
        exact hholds
      rcases Option.isSome_iff_exists.mp hholds' with ⟨c, hc⟩
      obtain ⟨h1, h2, h3⟩ := emitBuild_fields hc
      refine ⟨c, mem_allCandidatesBuild.mpr ⟨crit, hcrit, (b, a), hmem, hc⟩, ?_, ?_⟩
      · unfold ckey
        rw [h1, h2, pairKey_comm]
      · rw [h3, hname]

theorem exists_cand_key_iff {cfg : CriteriaConfig} {nodes : List Node} {a b : Node}
    (hnd : (nodes.map Node.id).Nodup) (ha : a ∈ nodes) (hb : b ∈ nodes)
    (hab : a.id ≠ b.id) :
    (∃ c ∈ allCandidatesBuild cfg nodes, ckey c = pairKey a.id b.id) ↔
      ∃ crit ∈ enabledCrits cfg, critHoldsBuild cfg crit a b = true := by
  constructor
  · rintro ⟨c, hc, hk⟩
    rcases (cand_key_type_iff hnd ha hb hab c.edge_type).mp ⟨c, hc, hk, rfl⟩ with
      ⟨crit, hc1, hc2, _⟩
    exact ⟨crit, hc1, hc2⟩
  · rintro ⟨crit, hc1, hc2⟩
    rcases (cand_key_type_iff hnd ha hb hab (kindName crit)).mpr
      ⟨crit, hc1, hc2, rfl⟩ with ⟨c, hc, hk, _⟩
    exact ⟨c, hc, hk⟩

theorem groupTypes_mem {cfg : CriteriaConfig} {nodes : List Node} {a b : Node}
    (hnd : (nodes.map Node.id).Nodup) (ha : a ∈ nodes) (hb : b ∈ nodes)
    (hab : a.id ≠ b.id) (s : String) :
    s ∈ (groupFor (allCandidatesBuild cfg nodes) (pairKey a.id b.id)).map
        (fun e => e.edge_type) ↔
      ∃ crit ∈ enabledCrits cfg,
        critHoldsBuild cfg crit a b = true ∧ kindName crit = s := by
  rw [← cand_key_type_iff hnd ha hb hab s]
  simp only [groupFor, List.mem_map, List.mem_filter, beq_iff_eq]
  constructor
  · rintro ⟨c, ⟨hc, hk⟩, ht⟩
    exact ⟨c, hc, hk, ht⟩
  · rintro ⟨c, hc, hk, ht⟩
    exact ⟨c, ⟨hc, hk⟩, ht⟩

/-! ### Pair grouping and per-policy step lemmas -/

theorem mem_pairKeys {cands : List CandidateEdge} {k : String × String} :
    k ∈ pairKeys cands ↔ ∃ c ∈ cands, ckey c = k := by
  simp only [pairKeys, List.mem_dedup, List.mem_map]

theorem pairKeys_nodup (cands : List CandidateEdge) : (pairKeys cands).Nodup :=
  List.nodup_dedup _

theorem groupFor_ne_nil {cands : List CandidateEdge} {k : String × String}
    (h : ∃ c ∈ cands, ckey c = k) : groupFor cands k ≠ [] := by
  rcases h with ⟨c, hc, hk⟩
  intro hnil
  have hmem : c ∈ groupFor cands k := List.mem_filter.mpr ⟨hc, by simp [hk]⟩
  rw [hnil] at hmem
  exact absurd hmem (List.not_mem_nil c)

theorem createCombinedEdge_isSome {g : List CandidateEdge} (h : g ≠ []) :
    (createCombinedEdge g).isSome = true := by
  cases g with
  | nil => exact absurd rfl h
  | cons e rest => rfl

theorem createCombinedEdge_endpoints {g : List CandidateEdge} {c : CombinedEdge}
    (h : createCombinedEdge g = some c) :
    ∃ e ∈ g, c.repo1 = e.repo1 ∧ c.repo2 = e.repo2 := by
  cases g with
  | nil => exact absurd h (by simp [createCombinedEdge])
  | cons e rest =>
    refine ⟨e, List.mem_cons_self e rest, ?_⟩
    simp only [createCombinedEdge] at h
    injection h with h'
    rw [← h']
    exact ⟨rfl, rfl⟩

theorem orStep_key {cands : List CandidateEdge} {k : String × String}
    {f : FinalEdge} (h : orStep cands k = some f) : fkey f = k := by
  simp only [orStep] at h
  split at h
  · rcases Option.map_eq_some'.mp h with ⟨e, he, rfl⟩
    have hmem : e ∈ groupFor cands k := List.mem_of_mem_head? (by simp [he])
    have hk := (List.mem_filter.mp hmem).2
    simp only [beq_iff_eq] at hk
    exact hk
  · rcases Option.map_eq_some'.mp h with ⟨c, hc, rfl⟩
    rcases createCombinedEdge_endpoints hc with ⟨e, he, h1, h2⟩
    have hk := (List.mem_filter.mp he).2
    simp only [beq_iff_eq] at hk
    show pairKey c.repo1 c.repo2 = k
    rw [h1, h2]
    exact hk

theorem orStep_isSome {cands : List CandidateEdge} {k : String × String}
    (hg : groupFor cands k ≠ []) : (orStep cands k).isSome = true := by
  simp only [orStep]
  split <;> rename_i hlen
  · rcases List.length_eq_one.mp (by simpa using hlen) with ⟨e, he⟩
    rw [he]
    rfl
  · rcases Option.isSome_iff_exists.mp (createCombinedEdge_isSome hg) with ⟨c, hc⟩
    rw [hc]
    rfl

theorem strictStep_key {cfg : CriteriaConfig} {cands : List CandidateEdge}
    {k : String × String} {f : FinalEdge} (h : strictStep cfg cands k = some f) :
    fkey f = k := by
  simp only [strictStep] at h
  split at h
  · rcases Option.map_eq_some'.mp h with ⟨c, hc, rfl⟩
    rcases createCombinedEdge_endpoints hc with ⟨e, he, h1, h2⟩
    have hk := (List.mem_filter.mp he).2
    simp only [beq_iff_eq] at hk
    show pairKey c.repo1 c.repo2 = k
    rw [h1, h2]
    exact hk
  · exact absurd h (by simp)

theorem strictStep_isSome_iff {cfg : CriteriaConfig} {cands : List CandidateEdge}
    {k : String × String} (hg : groupFor cands k ≠ []) :
    (strictStep cfg cands k).isSome = true ↔
      ∀ r ∈ requiredKinds cfg,
        r ∈ (groupFor cands k).map (fun e => e.edge_type) := by
  simp only [strictStep]
  split <;> rename_i hcond
  · constructor
    · intro _ r hr
      rw [List.all_eq_true] at hcond
      simpa using hcond r hr
    · intro _
      rcases Option.isSome_iff_exists.mp (createCombinedEdge_isSome hg) with ⟨c, hc⟩
      rw [hc]
      rfl
  · constructor
    · intro hfalse
      exact absurd hfalse (by simp)
    · intro hall
      exfalso
      apply hcond
      rw [List.all_eq_true]
      intro r hr
      simpa using hall r hr

theorem flexStep_key {minReq : Nat} {cands : List CandidateEdge}
    {k : String × String} {f : FinalEdge} (h : flexStep minReq cands k = some f) :
    fkey f = k := by
  simp only [flexStep] at h
  split at h
  · rcases Option.map_eq_some'.mp h with ⟨c, hc, rfl⟩
    rcases createCombinedEdge_endpoints hc with ⟨e, he, h1, h2⟩
    have hk := (List.mem_filter.mp he).2
    simp only [beq_iff_eq] at hk
    show pairKey c.repo1 c.repo2 = k
    rw [h1, h2]
    exact hk
  · exact absurd h (by simp)

theorem flexStep_isSome_iff {minReq : Nat} {cands : List CandidateEdge}
    {k : String × String} (hg : groupFor cands k ≠ []) :
    (flexStep minReq cands k).isSome = true ↔
      minReq ≤ (((groupFor cands k).map (fun e => e.edge_type)).dedup).length := by
  simp only [flexStep]
  split <;> rename_i hcond
  · constructor
    · intro _
      exact hcond
    · intro _
      rcases Option.isSome_iff_exists.mp (createCombinedEdge_isSome hg) with ⟨c, hc⟩
      rw [hc]
      rfl
  · constructor
    · intro hfalse
      exact absurd hfalse (by simp)
    · intro hle
      exact absurd hle hcond

/-! ### Per-policy global characterizations -/

theorem applyCombinationLogic_exists (cands : List CandidateEdge)
    (k : String × String) :
    (∃ f ∈ applyCombinationLogic cands, fkey f = k) ↔ ∃ c ∈ cands, ckey c = k := by
  unfold applyCombinationLogic
  split <;> rename_i hemp
  · rw [List.isEmpty_iff] at hemp
    subst hemp
    simp
  · rw [exists_key_filterMap (fun k f h => orStep_key h) k]
    constructor
    · rintro ⟨hk, _⟩
      exact mem_pairKeys.mp hk
    · intro h
      exact ⟨mem_pairKeys.mpr h, orStep_isSome (groupFor_ne_nil h)⟩

theorem applyCombinationLogic_count (cands : List CandidateEdge)
    (k : String × String) :
    ((applyCombinationLogic cands).filter (fun f => fkey f == k)).length ≤ 1 := by
  unfold applyCombinationLogic
  split
  · simp
  · exact count_key_filterMap (pairKeys_nodup cands) (fun k f h => orStep_key h) k

theorem evalPairs_pairwise_keys {emit : Node → Node → Option CandidateEdge}
    {nodes : List Node}
    (hfields : ∀ x y c, emit x y = some c → c.repo1 = x.id ∧ c.repo2 = y.id)
    (hnd : (nodes.map Node.id).Nodup) :
    (evalPairs emit nodes).Pairwise (fun c c' => ckey c ≠ ckey c') := by
  refine pairwise_filterMap_of ?_ (listPairs_pairwise_keys hnd)
  intro p q hpq x hx y hy
  obtain ⟨h1, h2⟩ := hfields _ _ _ hx
  obtain ⟨h3, h4⟩ := hfields _ _ _ hy
  unfold ckey
  rw [h1, h2, h3, h4]
  exact hpq

theorem required_mem_types_iff {cfg : CriteriaConfig} {nodes : List Node}
    {a b : Node} (hnd : (nodes.map Node.id).Nodup) (ha : a ∈ nodes)
    (hb : b ∈ nodes) (hab : a.id ≠ b.id) :
    (∀ r ∈ requiredKinds cfg,
        r ∈ (groupFor (allCandidatesBuild cfg nodes) (pairKey a.id b.id)).map
          (fun e => e.edge_type)) ↔
      ∀ crit ∈ enabledCrits cfg, critHoldsBuild cfg crit a b = true := by
  constructor
  · intro h crit hcrit
    have hr : kindName crit ∈ requiredKinds cfg := List.mem_map_of_mem _ hcrit
    rcases (groupTypes_mem hnd ha hb hab _).mp (h _ hr) with ⟨crit', hc1, hc2, hc3⟩
    rwa [kindName_injective hc3] at hc2
  · intro h r hr
    rcases List.mem_map.mp hr with ⟨crit, hcrit, rfl⟩
    exact (groupTypes_mem hnd ha hb hab _).mpr ⟨crit, hcrit, h crit hcrit, rfl⟩

theorem dedup_types_length {cfg : CriteriaConfig} {nodes : List Node}
    {a b : Node} (hnd : (nodes.map Node.id).Nodup) (ha : a ∈ nodes)
    (hb : b ∈ nodes) (hab : a.id ≠ b.id) :
    (((groupFor (allCandidatesBuild cfg nodes) (pairKey a.id b.id)).map
        (fun e => e.edge_type)).dedup).length =
      ((enabledCrits cfg).filter
        (fun crit => critHoldsBuild cfg crit a b)).length := by
  have hLnodup : ((enabledCrits cfg).filter
      (fun crit => critHoldsBuild cfg crit a b)).Nodup :=
    List.Nodup.filter _ (enabledCrits_nodup cfg)
  have hmapL : (((enabledCrits cfg).filter
      (fun crit => critHoldsBuild cfg crit a b)).map kindName).Nodup :=
    List.Nodup.map kindName_injective hLnodup
  have hmem : ∀ x,
      x ∈ (((groupFor (allCandidatesBuild cfg nodes) (pairKey a.id b.id)).map
          (fun e => e.edge_type)).dedup) ↔
        x ∈ ((enabledCrits cfg).filter
          (fun crit => critHoldsBuild cfg crit a b)).map kindName := by
    intro x
    rw [List.mem_dedup, groupTypes_mem hnd ha hb hab x]
    simp only [List.mem_map, List.mem_filter]
    constructor
    · rintro ⟨crit, hc1, hc2, hc3⟩
      exact ⟨crit, ⟨hc1, hc2⟩, hc3⟩
    · rintro ⟨crit, ⟨hc1, hc2⟩, hc3⟩
      exact ⟨crit, hc1, hc2, hc3⟩
  have hlen := length_eq_of_nodup_mem_iff (List.nodup_dedup _) hmapL hmem
  rwa [List.length_map] at hlen

/-! ### Dispatch selection lemmas -/

theorem finalDispatch_eq_or {cfg : CriteriaConfig} (cands : List CandidateEdge)
    (hstrict : cfg.strict_and_logic = false)
    (hmin : cfg.min_criteria_required ≤ 1) (huse : cfg.use_and_logic = false) :
    finalDispatch cfg cands = applyCombinationLogic cands := by
  simp [finalDispatch, hstrict, huse, Nat.not_lt.mpr hmin]

theorem finalDispatch_eq_strict {cfg : CriteriaConfig} (cands : List CandidateEdge)
    (hstrict : cfg.strict_and_logic = true) :
    finalDispatch cfg cands = applyStrictAndLogic cands cfg := by
  simp [finalDispatch, hstrict]

theorem finalDispatch_eq_flex {cfg : CriteriaConfig} (cands : List CandidateEdge)
    (hstrict : cfg.strict_and_logic = false)
    (hmin : 1 < cfg.min_criteria_required) :
    finalDispatch cfg cands = applyFlexibleAndLogic cands cfg := by
  simp [finalDispatch, hstrict, hmin]

/-! ### Per-policy results at the level of the assembled candidate pool -/

theorem allCandidatesBuild_pairwise_of_le_one {cfg : CriteriaConfig}
    {nodes : List Node} (hle : enabledCount cfg ≤ 1)
    (hnd : (nodes.map Node.id).Nodup) :
    (allCandidatesBuild cfg nodes).Pairwise (fun c c' => ckey c ≠ ckey c') := by
  unfold allCandidatesBuild
  rcases hlist : enabledCrits cfg with _ | ⟨c0, rest⟩
  · simp
  · have hrest : rest = [] := by
      unfold enabledCount at hle
      rw [hlist] at hle
      simp only [List.length_cons] at hle
      cases rest with
      | nil => rfl
      | cons r rs => simp at hle
    subst hrest
    simp only [List.flatMap_cons, List.flatMap_nil, List.append_nil]
    exact evalPairs_pairwise_keys
      (fun x y c h => ⟨(emitBuild_fields h).1, (emitBuild_fields h).2.1⟩) hnd

theorem map_single_count {cands : List CandidateEdge}
    (hpw : cands.Pairwise (fun c c' => ckey c ≠ ckey c')) (k : String × String) :
    ((cands.map FinalEdge.single).filter (fun f => fkey f == k)).length ≤ 1 := by
  refine filter_key_length_le_one ?_ k
  rw [List.pairwise_map]
  exact hpw.imp (fun h => h)

theorem applyStrictAndLogic_exists {cfg : CriteriaConfig} {nodes : List Node}
    {a b : Node} (hnd : (nodes.map Node.id).Nodup) (ha : a ∈ nodes)
    (hb : b ∈ nodes) (hab : a.id ≠ b.id) (henable : enabledCrits cfg ≠ []) :
    (∃ f ∈ applyStrictAndLogic (allCandidatesBuild cfg nodes) cfg,
        fkey f = pairKey a.id b.id) ↔
      ∀ crit ∈ enabledCrits cfg, critHoldsBuild cfg crit a b = true := by
  unfold applyStrictAndLogic
  split <;> rename_i hemp
  · rw [List.isEmpty_iff] at hemp
    constructor
    · rintro ⟨f, hf, _⟩
      exact absurd hf (List.not_mem_nil f)
    · intro hall
      exfalso
      rcases List.exists_mem_of_ne_nil _ henable with ⟨crit0, hcrit0⟩
      rcases (exists_cand_key_iff hnd ha hb hab).mpr
        ⟨crit0, hcrit0, hall crit0 hcrit0⟩ with ⟨c, hc, _⟩
      rw [hemp] at hc
      exact absurd hc (List.not_mem_nil c)
  · split <;> rename_i hle
    · have hlen1 : enabledCount cfg = 1 :=
        Nat.le_antisymm hle (List.length_pos.mpr henable)
      rcases List.length_eq_one.mp hlen1 with ⟨c0, hc0⟩
      constructor
      · rintro ⟨f, hf, hfk⟩
        rcases List.mem_map.mp hf with ⟨c, hc, rfl⟩
        rcases (exists_cand_key_iff hnd ha hb hab).mp ⟨c, hc, hfk⟩ with
          ⟨crit, hcrit, hholds⟩
        intro crit' hcrit'
        rw [hc0] at hcrit hcrit'
        rw [List.mem_singleton.mp hcrit'] at *
        rw [List.mem_singleton.mp hcrit] at hholds
        exact hholds
      · intro hall
        rcases List.exists_mem_of_ne_nil _ henable with ⟨crit0, hcrit0⟩
        rcases (exists_cand_key_iff hnd ha hb hab).mpr
          ⟨crit0, hcrit0, hall crit0 hcrit0⟩ with ⟨c, hc, hck⟩
        exact ⟨FinalEdge.single c, List.mem_map_of_mem _ hc, hck⟩
    · rw [exists_key_filterMap (fun k f h => strictStep_key h) _]
      constructor
      · rintro ⟨hk, hsome⟩
        have hg : groupFor (allCandidatesBuild cfg nodes) (pairKey a.id b.id) ≠ [] :=
          groupFor_ne_nil (mem_pairKeys.mp hk)
        rw [strictStep_isSome_iff hg] at hsome
        exact (required_mem_types_iff hnd ha hb hab).mp hsome
      · intro hall
        rcases List.exists_mem_of_ne_nil _ henable with ⟨crit0, hcrit0⟩
        have hex := (exists_cand_key_iff hnd ha hb hab).mpr
          ⟨crit0, hcrit0, hall crit0 hcrit0⟩
        exact ⟨mem_pairKeys.mpr hex, (strictStep_isSome_iff (groupFor_ne_nil hex)).mpr
          ((required_mem_types_iff hnd ha hb hab).mpr hall)⟩

theorem applyStrictAndLogic_count {cfg : CriteriaConfig} {nodes : List Node}
    (hnd : (nodes.map Node.id).Nodup) (k : String × String) :
    ((applyStrictAndLogic (allCandidatesBuild cfg nodes) cfg).filter
      (fun f => fkey f == k)).length ≤ 1 := by
  unfold applyStrictAndLogic
  split
  · simp
  · split <;> rename_i hle
    · exact map_single_count (allCandidatesBuild_pairwise_of_le_one hle hnd) k
    · exact count_key_filterMap (pairKeys_nodup _) (fun k f h => strictStep_key h) k

theorem applyFlexibleAndLogic_eq_filterMap {cfg : CriteriaConfig}
    {cands : List CandidateEdge} (hstrict : cfg.strict_and_logic = false)
    (hemp : cands.isEmpty = false) (hgt : ¬ enabledCount cfg ≤ 1) :
    applyFlexibleAndLogic cands cfg =
      (pairKeys cands).filterMap (flexStep cfg.min_criteria_required cands) := by
  unfold applyFlexibleAndLogic
  rw [hemp]
  simp [hgt, hstrict]

theorem applyFlexibleAndLogic_count {cfg : CriteriaConfig} {nodes : List Node}
    (hnd : (nodes.map Node.id).Nodup) (k : String × String) :
    ((applyFlexibleAndLogic (allCandidatesBuild cfg nodes) cfg).filter
      (fun f => fkey f == k)).length ≤ 1 := by
  unfold applyFlexibleAndLogic
  split
  · simp
  · split <;> rename_i hle
    · exact map_single_count (allCandidatesBuild_pairwise_of_le_one hle hnd) k
    · exact count_key_filterMap (pairKeys_nodup _) (fun k f h => flexStep_key h) k

theorem applyFlexibleAndLogic_exists_ge_two {cfg : CriteriaConfig}
    {nodes : List Node} {a b : Node} (hnd : (nodes.map Node.id).Nodup)
    (ha : a ∈ nodes) (hb : b ∈ nodes) (hab : a.id ≠ b.id)
    (hstrict : cfg.strict_and_logic = false) (hge : 2 ≤ enabledCount cfg)
    (hmin : 1 ≤ cfg.min_criteria_required) :
    (∃ f ∈ applyFlexibleAndLogic (allCandidatesBuild cfg nodes) cfg,
        fkey f = pairKey a.id b.id) ↔
      cfg.min_criteria_required ≤
        ((enabledCrits cfg).filter
          (fun crit => critHoldsBuild cfg crit a b)).length := by
  have hgt : ¬ enabledCount cfg ≤ 1 := by omega
  have hexcrit_of_count : cfg.min_criteria_required ≤
      ((enabledCrits cfg).filter
        (fun crit => critHoldsBuild cfg crit a b)).length →
      ∃ crit ∈ enabledCrits cfg, critHoldsBuild cfg crit a b = true := by
    intro hcount
    have hpos : 0 < ((enabledCrits cfg).filter
        (fun crit => critHoldsBuild cfg crit a b)).length := by omega
    rcases List.exists_mem_of_ne_nil _ (List.length_pos.mp hpos) with ⟨crit, hcrit⟩
    have hsplit := List.mem_filter.mp hcrit
    exact ⟨crit, hsplit.1, hsplit.2⟩
  cases hempc : (allCandidatesBuild cfg nodes).isEmpty with
  | false =>
    rw [applyFlexibleAndLogic_eq_filterMap hstrict hempc hgt]
    rw [exists_key_filterMap (fun k f h => flexStep_key h) _]
    constructor
    · rintro ⟨hk, hsome⟩
      have hg : groupFor (allCandidatesBuild cfg nodes) (pairKey a.id b.id) ≠ [] :=
        groupFor_ne_nil (mem_pairKeys.mp hk)
      rw [flexStep_isSome_iff hg] at hsome
      rwa [dedup_types_length hnd ha hb hab] at hsome
    · intro hcount
      have hex := (exists_cand_key_iff hnd ha hb hab).mpr (hexcrit_of_count hcount)
      refine ⟨mem_pairKeys.mpr hex, ?_⟩
      rw [flexStep_isSome_iff (groupFor_ne_nil hex),
        dedup_types_length hnd ha hb hab]
      exact hcount
  | true =>
    rw [List.isEmpty_iff] at hempc
    rw [hempc]
    constructor
    · rintro ⟨f, hf, _⟩
      simp [applyFlexibleAndLogic] at hf
    · intro hcount
      exfalso
      rcases (exists_cand_key_iff hnd ha hb hab).mpr (hexcrit_of_count hcount) with
        ⟨c, hc, _⟩
      rw [hempc] at hc
      exact absurd hc (List.not_mem_nil c)

theorem applyFlexibleAndLogic_exists_le_one {cfg : CriteriaConfig}
    {nodes : List Node} {a b : Node} (hnd : (nodes.map Node.id).Nodup)
    (ha : a ∈ nodes) (hb : b ∈ nodes) (hab : a.id ≠ b.id)
    (hle : enabledCount cfg ≤ 1) :
    (∃ f ∈ applyFlexibleAndLogic (allCandidatesBuild cfg nodes) cfg,
        fkey f = pairKey a.id b.id) ↔
      ∃ crit ∈ enabledCrits cfg, critHoldsBuild cfg crit a b = true := by
  cases hemp : (allCandidatesBuild cfg nodes).isEmpty with
  | true =>
    rw [List.isEmpty_iff] at hemp
    rw [hemp]
    constructor
    · rintro ⟨f, hf, _⟩
      simp [applyFlexibleAndLogic] at hf
    · intro hex
      exfalso
      rcases (exists_cand_key_iff hnd ha hb hab).mpr hex with ⟨c, hc, _⟩
      rw [hemp] at hc
      exact absurd hc (List.not_mem_nil c)
  | false =>
    have heq : applyFlexibleAndLogic (allCandidatesBuild cfg nodes) cfg =
        (allCandidatesBuild cfg nodes).map FinalEdge.single := by
      unfold applyFlexibleAndLogic
      rw [hemp]
      simp [hle]
    rw [heq]
    constructor
    · rintro ⟨f, hf, hfk⟩
      rcases List.mem_map.mp hf with ⟨c, hc, rfl⟩
      exact (exists_cand_key_iff hnd ha hb hab).mp ⟨c, hc, hfk⟩
    · intro hex
      rcases (exists_cand_key_iff hnd ha hb hab).mpr hex with ⟨c, hc, hck⟩
      exact ⟨FinalEdge.single c, List.mem_map_of_mem _ hc, hck⟩

/-! ### Claim statement forms -/

/-- At most one final edge per unordered repository pair. -/
def atMostOnePerPair (finals : List FinalEdge) : Prop :=
  ∀ k : String × String, (finals.filter (fun f => fkey f == k)).length ≤ 1

/-- OR semantics at a pair: a final edge is produced iff at least one enabled
criterion's predicate holds. -/
def orEdgeIff (cfg : CriteriaConfig) (nodes : List Node) (a b : Node) : Prop :=
  (∃ f ∈ pipelineBuild cfg nodes, fkey f = pairKey a.id b.id) ↔
    ∃ crit ∈ enabledCrits cfg, critHoldsBuild cfg crit a b = true

/-- Strict-AND semantics at a pair: a final edge is produced iff every enabled
criterion's predicate holds. -/
def strictEdgeIff (cfg : CriteriaConfig) (nodes : List Node) (a b : Node) : Prop :=
  (∃ f ∈ pipelineBuild cfg nodes, fkey f = pairKey a.id b.id) ↔
    ∀ crit ∈ enabledCrits cfg, critHoldsBuild cfg crit a b = true

/-- Flexible-AND semantics at a pair as the code implements it: the
`min_criteria_required` filter applies only when at least two criteria are
enabled; with at most one enabled criterion the candidate edges are kept
unchanged. -/
def flexEdgeIff (cfg : CriteriaConfig) (nodes : List Node) (a b : Node) : Prop :=
  (2 ≤ enabledCount cfg →
    ((∃ f ∈ pipelineBuild cfg nodes, fkey f = pairKey a.id b.id) ↔
      cfg.min_criteria_required ≤
        ((enabledCrits cfg).filter
          (fun crit => critHoldsBuild cfg crit a b)).length)) ∧
  (enabledCount cfg ≤ 1 →
    ((∃ f ∈ pipelineBuild cfg nodes, fkey f = pairKey a.id b.id) ↔
      ∃ crit ∈ enabledCrits cfg, critHoldsBuild cfg crit a b = true))

/-! ### Witness fixtures -/

/-- Fixture node: organization `acme`, topics `x|y`. -/
def wNodeA : Node :=
  { id := "acme/alpha", topics := "x|y", contributors := "u1,u2,u3"
    stargazers := "s1,s2" }

/-- Fixture node: organization `beta`, topics `y|z`. -/
def wNodeB : Node :=
  { id := "beta/bravo", topics := "y|z", contributors := "u2,u3,u4"
    stargazers := "s2,s3" }

/-- Fixture node: organization `acme`, topics `y|z`. -/
def wNodeC : Node :=
  { id := "acme/charlie", topics := "y|z", contributors := "v1,v2"
    stargazers := "t1" }

/-- Fixture config: topic and contributor criteria enabled, OR combination. -/
def wCfgOr : CriteriaConfig :=
  { topic_based_linking := true, contributor_overlap_enabled := true
    shared_organization_enabled := false, common_stargazers_enabled := false
    topic_threshold := 2, contributor_overlap_threshold := 2
    contributor_threshold := 1, stargazer_overlap_threshold := 2
    stargazer_threshold := 5, strict_and_logic := false
    min_criteria_required := 0, use_and_logic := false }

/-- Fixture config: topic and organization criteria enabled, strict AND. -/
def wCfgStrict : CriteriaConfig :=
  { topic_based_linking := true, contributor_overlap_enabled := false
    shared_organization_enabled := true, common_stargazers_enabled := false
    topic_threshold := 1, contributor_overlap_threshold := 2
    contributor_threshold := 1, stargazer_overlap_threshold := 2
    stargazer_threshold := 5, strict_and_logic := true
    min_criteria_required := 0, use_and_logic := false }

/-- Fixture config: only the topic criterion enabled, yet
`min_criteria_required = 2` requested (flexible AND dispatch). -/
def wCfgFlexSingle : CriteriaConfig :=
  { topic_based_linking := true, contributor_overlap_enabled := false
    shared_organization_enabled := false, common_stargazers_enabled := false
    topic_threshold := 1, contributor_overlap_threshold := 2
    contributor_threshold := 1, stargazer_overlap_threshold := 2
    stargazer_threshold := 5, strict_and_logic := false
    min_criteria_required := 2, use_and_logic := false }

/-- Fixture config: topic and contributor criteria enabled,
`min_criteria_required = 2` (flexible AND dispatch). -/
def wCfgFlexTwo : CriteriaConfig :=
  { topic_based_linking := true, contributor_overlap_enabled := true
    shared_organization_enabled := false, common_stargazers_enabled := false
    topic_threshold := 1, contributor_overlap_threshold := 2
    contributor_threshold := 1, stargazer_overlap_threshold := 2
    stargazer_threshold := 5, strict_and_logic := false
    min_criteria_required := 2, use_and_logic := false }

/-! ### Claim C1 -/

/-- C1: under the default OR combination policy (`strict_and_logic` false,
`min_criteria_required ≤ 1`, `use_and_logic` false), for every node set with
distinct identifiers and every criteria config, the combination engine
produces a final edge between `a` and `b` iff at least one enabled
criterion's predicate holds for the pair, and it produces at most one final
edge per unordered pair. -/
theorem or_policy_edge_iff (cfg : CriteriaConfig) (nodes : List Node)
    (a b : Node) (hstrict : cfg.strict_and_logic = false)
    (hmin : cfg.min_criteria_required ≤ 1) (huse : cfg.use_and_logic = false)
    (hnd : (nodes.map Node.id).Nodup) (ha : a ∈ nodes) (hb : b ∈ nodes)
    (hab : a.id ≠ b.id) :
    orEdgeIff cfg nodes a b ∧ atMostOnePerPair (pipelineBuild cfg nodes) := by
  have hpipe : pipelineBuild cfg nodes =
      applyCombinationLogic (allCandidatesBuild cfg nodes) :=
    finalDispatch_eq_or _ hstrict hmin huse
  constructor
  · unfold orEdgeIff
    rw [hpipe, applyCombinationLogic_exists]
    exact exists_cand_key_iff hnd ha hb hab
  · intro k
    rw [hpipe]
    exact applyCombinationLogic_count _ k

/-- Witness for C1 at a concrete two-node set: topics overlap in `y` and two
contributors are shared, with topic and contributor criteria enabled. -/
theorem or_policy_edge_iff_witness :
    (wCfgOr.strict_and_logic = false ∧ wCfgOr.min_criteria_required ≤ 1 ∧
      wCfgOr.use_and_logic = false ∧
      (([wNodeA, wNodeB]).map Node.id).Nodup ∧ wNodeA ∈ [wNodeA, wNodeB] ∧
      wNodeB ∈ [wNodeA, wNodeB] ∧ wNodeA.id ≠ wNodeB.id) ∧
    (orEdgeIff wCfgOr [wNodeA, wNodeB] wNodeA wNodeB ∧
      atMostOnePerPair (pipelineBuild wCfgOr [wNodeA, wNodeB])) :=
  ⟨by decide,
    or_policy_edge_iff wCfgOr [wNodeA, wNodeB] wNodeA wNodeB (by decide)
      (by decide) (by decide) (by decide) (by decide) (by decide) (by decide)⟩

/-! ### Claim C2 -/

/-- C2: under strict AND (`strict_and_logic` true) with a validated config (at
least one criterion enabled), a final edge exists between `a` and `b` iff
every enabled criterion's predicate holds for the pair, and at most one final
edge is produced per unordered pair (each kept group becoming one final
edge). -/
theorem strict_policy_edge_iff (cfg : CriteriaConfig) (nodes : List Node)
    (a b : Node) (hstrict : cfg.strict_and_logic = true)
    (henable : enabledCrits cfg ≠ []) (hnd : (nodes.map Node.id).Nodup)
    (ha : a ∈ nodes) (hb : b ∈ nodes) (hab : a.id ≠ b.id) :
    strictEdgeIff cfg nodes a b ∧ atMostOnePerPair (pipelineBuild cfg nodes) := by
  have hpipe : pipelineBuild cfg nodes =
      applyStrictAndLogic (allCandidatesBuild cfg nodes) cfg :=
    finalDispatch_eq_strict _ hstrict
  constructor
  · unfold strictEdgeIff
    rw [hpipe]
    exact applyStrictAndLogic_exists hnd ha hb hab henable
  · intro k
    rw [hpipe]
    exact applyStrictAndLogic_count hnd k

/-- Witness for C2 at a concrete three-node set: `wNodeA` and `wNodeC` share
topic `y` and organization `acme` (both enabled criteria hold), while `wNodeB`
fails the organization criterion. -/
theorem strict_policy_edge_iff_witness :
    (wCfgStrict.strict_and_logic = true ∧ enabledCrits wCfgStrict ≠ [] ∧
      (([wNodeA, wNodeB, wNodeC]).map Node.id).Nodup ∧
      wNodeA ∈ [wNodeA, wNodeB, wNodeC] ∧ wNodeC ∈ [wNodeA, wNodeB, wNodeC] ∧
      wNodeA.id ≠ wNodeC.id) ∧
    (strictEdgeIff wCfgStrict [wNodeA, wNodeB, wNodeC] wNodeA wNodeC ∧
      atMostOnePerPair (pipelineBuild wCfgStrict [wNodeA, wNodeB, wNodeC])) :=
  ⟨by decide,
    strict_policy_edge_iff wCfgStrict [wNodeA, wNodeB, wNodeC] wNodeA wNodeC
      (by decide) (by decide) (by decide) (by decide) (by decide) (by decide)⟩

/-! ### Claim C3 (corrected) -/

/-- C3 counterexample: with only the topic criterion enabled and
`min_criteria_required = 2`, the engine still emits a final edge for a pair
satisfying just one criterion — `_apply_flexible_and_logic` returns every
candidate edge unchanged when at most one criterion is enabled, so the claimed
"edge iff at least `k` distinct enabled criteria are satisfied" fails (the
pair satisfies 1 < 2 criteria yet gets an edge). -/
theorem flex_single_criterion_counterexample :
    (wCfgFlexSingle.strict_and_logic = false ∧
      1 < wCfgFlexSingle.min_criteria_required) ∧
    (∃ f ∈ pipelineBuild wCfgFlexSingle [wNodeA, wNodeB],
      fkey f = pairKey wNodeA.id wNodeB.id) ∧
    ((enabledCrits wCfgFlexSingle).filter
        (fun crit => critHoldsBuild wCfgFlexSingle crit wNodeA wNodeB)).length <
      wCfgFlexSingle.min_criteria_required := by
  decide

/-- C3 (amended): under flexible AND (`min_criteria_required = k > 1`,
`strict_and_logic` false), when at least two criteria are enabled a final edge
exists iff the number of distinct enabled criteria satisfied by the pair is
`≥ k`; when at most one criterion is enabled the flexible filter is bypassed
and a final edge exists iff some enabled criterion holds, regardless of `k`.
At most one final edge is produced per unordered pair. -/
theorem flex_policy_edge_iff (cfg : CriteriaConfig) (nodes : List Node)
    (a b : Node) (hstrict : cfg.strict_and_logic = false)
    (hmin : 1 < cfg.min_criteria_required) (hnd : (nodes.map Node.id).Nodup)
    (ha : a ∈ nodes) (hb : b ∈ nodes) (hab : a.id ≠ b.id) :
    flexEdgeIff cfg nodes a b ∧ atMostOnePerPair (pipelineBuild cfg nodes) := by
  have hpipe : pipelineBuild cfg nodes =
      applyFlexibleAndLogic (allCandidatesBuild cfg nodes) cfg :=
    finalDispatch_eq_flex _ hstrict hmin
  refine ⟨⟨fun hge => ?_, fun hle => ?_⟩, fun k => ?_⟩
  · rw [hpipe]
    exact applyFlexibleAndLogic_exists_ge_two hnd ha hb hab hstrict hge (by omega)
  · rw [hpipe]
    exact applyFlexibleAndLogic_exists_le_one hnd ha hb hab hle
  · rw [hpipe]
    exact applyFlexibleAndLogic_count hnd k

/-- Witness for the amended C3 at a concrete two-node set with two enabled
criteria (topic and contributor, both satisfied) and `k = 2`. -/
theorem flex_policy_edge_iff_witness :
    (wCfgFlexTwo.strict_and_logic = false ∧
      1 < wCfgFlexTwo.min_criteria_required ∧
      (([wNodeA, wNodeB]).map Node.id).Nodup ∧ wNodeA ∈ [wNodeA, wNodeB] ∧
      wNodeB ∈ [wNodeA, wNodeB] ∧ wNodeA.id ≠ wNodeB.id) ∧
    (flexEdgeIff wCfgFlexTwo [wNodeA, wNodeB] wNodeA wNodeB ∧
      atMostOnePerPair (pipelineBuild wCfgFlexTwo [wNodeA, wNodeB])) :=
  ⟨by decide,
    flex_policy_edge_iff wCfgFlexTwo [wNodeA, wNodeB] wNodeA wNodeB (by decide)
      (by decide) (by decide) (by decide) (by decide) (by decide)⟩

/-! ### Claim C4 (corrected): threshold boundaries -/

theorem parseListString_of_empty : parseListString "" = [] := by decide

theorem topicsOfGraph_of_empty {n : Node} (h : n.topics = "") :
    topicsOfGraph n = [] := by
  unfold topicsOfGraph
  rw [h]
  decide

theorem pyInter_ne_nil_parts {a b : List String} (h : pyInter a b ≠ []) :
    a ≠ [] ∧ b ≠ [] := by
  rcases List.exists_mem_of_ne_nil _ h with ⟨x, hx⟩
  rw [mem_pyInter] at hx
  exact ⟨List.ne_nil_of_mem hx.1, List.ne_nil_of_mem hx.2⟩

theorem emitTopicGraph_isSome_of_pos {t : Nat} (ht : 1 ≤ t) (a b : Node) :
    (emitTopicGraph t a b).isSome = true ↔
      t ≤ (pyInter (topicsOfGraph a) (topicsOfGraph b)).length := by
  simp only [emitTopicGraph]
  split <;> rename_i hguard
  · split <;> rename_i hth
    · simp [hth]
    · simp [hth]
  · simp only [Option.isSome_none, Bool.false_eq_true, false_iff]
    intro hle
    have hpos : 0 < (pyInter (topicsOfGraph a) (topicsOfGraph b)).length := by omega
    rcases pyInter_ne_nil_parts (List.length_pos.mp hpos) with ⟨h1, h2⟩
    have hor : a.topics = "" ∨ b.topics = "" := by
      by_cases hA : a.topics = ""
      · exact Or.inl hA
      · by_cases hB : b.topics = ""
        · exact Or.inr hB
        · exact absurd (by simp [bne_iff_ne, hA, hB]) hguard
    rcases hor with h | h
    · exact h1 (topicsOfGraph_of_empty h)
    · exact h2 (topicsOfGraph_of_empty h)

theorem emitContributorGraph_isSome_of_pos {t : Nat} (ht : 1 ≤ t) (a b : Node) :
    (emitContributorGraph t a b).isSome = true ↔
      t ≤ (pyInter (parseListString a.contributors)
        (parseListString b.contributors)).length := by
  simp only [emitContributorGraph]
  split <;> rename_i hguard
  · split <;> rename_i hth
    · simp [hth]
    · simp [hth]
  · simp only [Option.isSome_none, Bool.false_eq_true, false_iff]
    intro hle
    have hpos : 0 < (pyInter (parseListString a.contributors)
        (parseListString b.contributors)).length := by omega
    rcases pyInter_ne_nil_parts (List.length_pos.mp hpos) with ⟨h1, h2⟩
    have hor : a.contributors = "" ∨ b.contributors = "" := by
      by_cases hA : a.contributors = ""
      · exact Or.inl hA
      · by_cases hB : b.contributors = ""
        · exact Or.inr hB
        · exact absurd (by simp [bne_iff_ne, hA, hB]) hguard
    rcases hor with h | h
    · exact h1 (by rw [h]; exact parseListString_of_empty)
    · exact h2 (by rw [h]; exact parseListString_of_empty)

theorem emitStarGraph_isSome_of_pos {t : Nat} (ht : 1 ≤ t) (a b : Node) :
    (emitStarGraph t a b).isSome = true ↔
      t ≤ (pyInter (parseListString a.stargazers)
        (parseListString b.stargazers)).length := by
  simp only [emitStarGraph]
  split <;> rename_i hguard
  · split <;> rename_i hth
    · simp [hth]
    · simp [hth]
  · simp only [Option.isSome_none, Bool.false_eq_true, false_iff]
    intro hle
    have hpos : 0 < (pyInter (parseListString a.stargazers)
        (parseListString b.stargazers)).length := by omega
    rcases pyInter_ne_nil_parts (List.length_pos.mp hpos) with ⟨h1, h2⟩
    have hor : a.stargazers = "" ∨ b.stargazers = "" := by
      by_cases hA : a.stargazers = ""
      · exact Or.inl hA
      · by_cases hB : b.stargazers = ""
        · exact Or.inr hB
        · exact absurd (by simp [bne_iff_ne, hA, hB]) hguard
    rcases hor with h | h
    · exact h1 (by rw [h]; exact parseListString_of_empty)
    · exact h2 (by rw [h]; exact parseListString_of_empty)

/-- The threshold-boundary contract the evaluators actually satisfy: the
contributor and stargazer evaluators (both paths) and the rebuild-path topic
evaluator emit iff the shared set reaches the configured threshold, while the
build-path topic evaluator emits iff the shared set is non-empty. -/
def thresholdBoundary (a b : Node) (t : Nat) : Prop :=
  ((emitContributorBuild t a b).isSome = true ↔
    t ≤ (pyInter (parseListString a.contributors)
      (parseListString b.contributors)).length) ∧
  ((emitStarBuild t a b).isSome = true ↔
    t ≤ (pyInter (parseListString a.stargazers)
      (parseListString b.stargazers)).length) ∧
  ((emitTopicGraph t a b).isSome = true ↔
    t ≤ (pyInter (topicsOfGraph a) (topicsOfGraph b)).length) ∧
  ((emitContributorGraph t a b).isSome = true ↔
    t ≤ (pyInter (parseListString a.contributors)
      (parseListString b.contributors)).length) ∧
  ((emitStarGraph t a b).isSome = true ↔
    t ≤ (pyInter (parseListString a.stargazers)
      (parseListString b.stargazers)).length) ∧
  ((emitTopicBuild a b).isSome = true ↔
    1 ≤ (pyInter (topicsOfBuild a) (topicsOfBuild b)).length)

/-- Fixture config: only the topic criterion enabled with
`topic_threshold = 2` under the default OR combination. -/
def wCfgTopicThr : CriteriaConfig :=
  { topic_based_linking := true, contributor_overlap_enabled := false
    shared_organization_enabled := false, common_stargazers_enabled := false
    topic_threshold := 2, contributor_overlap_threshold := 2
    contributor_threshold := 1, stargazer_overlap_threshold := 2
    stargazer_threshold := 5, strict_and_logic := false
    min_criteria_required := 0, use_and_logic := false }

/-- C4 counterexample: with `topic_threshold = 2` the build-from-scratch topic
evaluator still emits an edge for a pair sharing only one topic — the build
path never consults `topic_threshold` (its evaluator fires on any non-empty
overlap), so "the topic evaluator emits iff |shared| ≥ topic_threshold on both
paths" fails; the rebuild-path evaluator with the same threshold refuses the
pair. -/
theorem topic_build_threshold_counterexample :
    wCfgTopicThr.topic_threshold = 2 ∧
    (pyInter (topicsOfBuild wNodeA) (topicsOfBuild wNodeB)).length = 1 ∧
    (∃ f ∈ pipelineBuild wCfgTopicThr [wNodeA, wNodeB],
      fkey f = pairKey wNodeA.id wNodeB.id) ∧
    (emitTopicGraph wCfgTopicThr.topic_threshold wNodeA wNodeB).isSome = false := by
  decide

/-- C4 (amended): for every pair and every threshold `t ≥ 1`, the contributor
and stargazer evaluators on both paths and the topic evaluator on the rebuild
path emit a candidate iff `|shared| ≥ t` (so `|shared| = t` qualifies and
`|shared| = t - 1` does not), while the build-path topic evaluator ignores
`topic_threshold` and emits iff the shared topic set is non-empty. -/
theorem threshold_boundary_holds (a b : Node) (t : Nat) (ht : 1 ≤ t) :
    thresholdBoundary a b t := by
  refine ⟨emitContributorBuild_isSome t a b, emitStarBuild_isSome t a b,
    emitTopicGraph_isSome_of_pos ht a b, emitContributorGraph_isSome_of_pos ht a b,
    emitStarGraph_isSome_of_pos ht a b, emitTopicBuild_isSome a b⟩

/-- Witness for the amended C4 at the boundary: `wNodeA` and `wNodeB` share
exactly 2 contributors, so threshold 2 qualifies while threshold 3 (= 2 + 1,
i.e. shared = threshold − 1) does not. -/
theorem threshold_boundary_holds_witness :
    (1 ≤ 2 ∧ thresholdBoundary wNodeA wNodeB 2) ∧
    (emitContributorBuild 2 wNodeA wNodeB).isSome = true ∧
    (emitContributorBuild 3 wNodeA wNodeB).isSome = false :=
  ⟨⟨by decide, threshold_boundary_holds wNodeA wNodeB 2 (by decide)⟩,
    (threshold_boundary_holds wNodeA wNodeB 2 (by decide)).1.mpr (by decide),
    by decide⟩

/-! ### Claim C5 (corrected): fail-fast validation -/

/-- Fixture config: all four enabling flags false. -/
def wCfgNone : CriteriaConfig :=
  { topic_based_linking := false, contributor_overlap_enabled := false
    shared_organization_enabled := false, common_stargazers_enabled := false
    topic_threshold := 2, contributor_overlap_threshold := 2
    contributor_threshold := 1, stargazer_overlap_threshold := 2
    stargazer_threshold := 5, strict_and_logic := false
    min_criteria_required := 0, use_and_logic := false }

/-- C5 counterexample: with no enabling flag set, `generate_edges_with_criteria`
does not fail — it runs to completion and returns an edgeless graph, so the
claim that *both* entry points fail fast is false. -/
theorem generate_no_validation_counterexample :
    enabledCrits wCfgNone = [] ∧
    generateEdgesWithCriteria [wNodeA, wNodeB] wCfgNone =
      Except.ok ({ nodes := [wNodeA, wNodeB], edges := [] }, 0) :=
  ⟨by decide, by rfl⟩

/-- C5 (amended): only the rebuild entry point validates the config — for
every graph and every config in which none of the four enabling flags is true,
`create_edges_on_existing_graph` fails fast with the specific `ValueError`
before touching the graph, while `generate_edges_with_criteria` performs no
such validation and completes normally. -/
theorem create_validation_fail_fast (G : Graph) (cfg : CriteriaConfig)
    (hnone : enabledCrits cfg = []) (repos : List Node) :
    createEdgesOnExistingGraph G cfg =
      Except.error "At least one edge creation criterion must be enabled" ∧
    ∀ s, generateEdgesWithCriteria repos cfg ≠ Except.error s := by
  constructor
  · unfold createEdgesOnExistingGraph
    rw [hnone]
    rfl
  · intro s
    unfold generateEdgesWithCriteria
    split <;> simp

/-- Witness for the amended C5 at a concrete graph and config with all four
flags false. -/
theorem create_validation_fail_fast_witness :
    enabledCrits wCfgNone = [] ∧
    (createEdgesOnExistingGraph { nodes := [wNodeA, wNodeB], edges := [] } wCfgNone =
        Except.error "At least one edge creation criterion must be enabled" ∧
      ∀ s, generateEdgesWithCriteria [wNodeA] wCfgNone ≠ Except.error s) :=
  ⟨by decide,
    create_validation_fail_fast { nodes := [wNodeA, wNodeB], edges := [] } wCfgNone
      (by decide) [wNodeA]⟩

/-! ### Claim C6: insufficient nodes on the rebuild path -/

/-- C6: on the rebuild path, for every graph with fewer than two nodes and
every valid config (at least one criterion enabled),
`create_edges_on_existing_graph` returns the structured
`{'message': 'Not enough nodes to create edges'}` result and raises no
exception. -/
theorem create_insufficient_nodes_message (G : Graph) (cfg : CriteriaConfig)
    (henable : enabledCrits cfg ≠ []) (hsize : G.nodes.length < 2) :
    createEdgesOnExistingGraph G cfg =
      Except.ok ({ G with edges := [] },
        CreateResult.message "Not enough nodes to create edges") := by
  unfold createEdgesOnExistingGraph
  have hne : (enabledCrits cfg == []) = false := by
    simpa using henable
  rw [hne]
  simp [hsize]

/-- Witness for C6: a one-node graph carrying a stale edge, with a valid
config. -/
theorem create_insufficient_nodes_message_witness :
    (enabledCrits wCfgOr ≠ [] ∧
      (Graph.mk [wNodeA] [⟨"acme/alpha", "beta/bravo", "topic_based", "", [], 1⟩]).nodes.length < 2) ∧
    createEdgesOnExistingGraph
        (Graph.mk [wNodeA] [⟨"acme/alpha", "beta/bravo", "topic_based", "", [], 1⟩]) wCfgOr =
      Except.ok ({ nodes := [wNodeA], edges := [] },
        CreateResult.message "Not enough nodes to create edges") :=
  ⟨⟨by decide, by decide⟩,
    create_insufficient_nodes_message
      (Graph.mk [wNodeA] [⟨"acme/alpha", "beta/bravo", "topic_based", "", [], 1⟩]) wCfgOr
      (by decide) (by decide)⟩

/-! ### Claim C10: mutation on the early exit -/

/-- C10: `create_edges_on_existing_graph` removes every pre-existing edge
*before* checking the node count, so on a sub-two-node graph the
"not enough nodes" result is returned with the graph already stripped of its
edges — the input graph is mutated even on this early exit (its nodes are
untouched). -/
theorem create_clears_edges_before_node_check (G : Graph) (cfg : CriteriaConfig)
    (henable : enabledCrits cfg ≠ []) (hsize : G.nodes.length < 2) :
    ∃ G' : Graph,
      createEdgesOnExistingGraph G cfg =
        Except.ok (G', CreateResult.message "Not enough nodes to create edges") ∧
      G'.edges = [] ∧ G'.nodes = G.nodes := by
  refine ⟨{ G with edges := [] }, ?_, rfl, rfl⟩
  unfold createEdgesOnExistingGraph
  have hne : (enabledCrits cfg == []) = false := by
    simpa using henable
  rw [hne]
  simp [hsize]

/-- Witness for C10: a one-node graph that enters with one stale edge and
leaves the early exit with none. -/
theorem create_clears_edges_before_node_check_witness :
    (enabledCrits wCfgStrict ≠ [] ∧
      (Graph.mk [wNodeB] [⟨"beta/bravo", "acme/alpha", "combined", "x|y", [], 2⟩]).nodes.length < 2) ∧
    ∃ G' : Graph,
      createEdgesOnExistingGraph
          (Graph.mk [wNodeB] [⟨"beta/bravo", "acme/alpha", "combined", "x|y", [], 2⟩]) wCfgStrict =
        Except.ok (G', CreateResult.message "Not enough nodes to create edges") ∧
      G'.edges = [] ∧
      G'.nodes = (Graph.mk [wNodeB] [⟨"beta/bravo", "acme/alpha", "combined", "x|y", [], 2⟩]).nodes :=
  ⟨⟨by decide, by decide⟩,
    create_clears_edges_before_node_check
      (Graph.mk [wNodeB] [⟨"beta/bravo", "acme/alpha", "combined", "x|y", [], 2⟩]) wCfgStrict
      (by decide) (by decide)⟩

/-! ### Claim C7 (corrected): merge order sensitivity -/

/-- Fixture candidate: topic edge for the `wNodeA`/`wNodeB` pair. -/
def wCandX : CandidateEdge :=
  ⟨"acme/alpha", "beta/bravo", "topic_based", "shared_topics", ["y"], 1⟩

/-- Fixture candidate: contributor edge for the same pair. -/
def wCandY : CandidateEdge :=
  ⟨"acme/alpha", "beta/bravo", "contributor_overlap", "shared_contributors",
    ["u2", "u3"], 2⟩

/-- C7 counterexample: `_create_combined_edge` records `criteria_satisfied` in
input order, so merging `[X, Y]` and `[Y, X]` yields final edges with
*different* criteria lists (reversed), refuting "merging [X, Y] yields the
same FinalEdge (same criteria list, ...) as merging [Y, X]".  The weights do
agree. -/
theorem merge_order_counterexample :
    (Option.map (fun c => c.criteria_satisfied) (createCombinedEdge [wCandX, wCandY]) =
      some ["topic_based", "contributor_overlap"]) ∧
    (Option.map (fun c => c.criteria_satisfied) (createCombinedEdge [wCandY, wCandX]) =
      some ["contributor_overlap", "topic_based"]) ∧
    createCombinedEdge [wCandX, wCandY] ≠ createCombinedEdge [wCandY, wCandX] := by
  decide

theorem createCombinedEdge_some_fields {g : List CandidateEdge} {c : CombinedEdge}
    (h : createCombinedEdge g = some c) :
    c.criteria_satisfied = g.map (fun x => x.edge_type) ∧
      c.weight = (g.map (fun x => x.weight)).sum := by
  cases g with
  | nil => exact absurd h (by simp [createCombinedEdge])
  | cons e rest =>
    simp only [createCombinedEdge] at h
    injection h with h'
    rw [← h']
    exact ⟨rfl, rfl⟩

theorem perm_toFinset_eq {l l' : List String} (h : l.Perm l') :
    l.toFinset = l'.toFinset :=
  toFinset_eq_of_mem_iff (fun x => h.mem_iff)

theorem mergedEvidenceAt_perm {l1 l2 : List CandidateEdge} (h : l1.Perm l2)
    (k : String) :
    (mergedEvidenceAt l1 k).toFinset = (mergedEvidenceAt l2 k).toFinset := by
  unfold mergedEvidenceAt
  have hflat : ((l1.filter (fun e => e.evKey == k)).flatMap (fun e => e.evVal)).Perm
      ((l2.filter (fun e => e.evKey == k)).flatMap (fun e => e.evVal)) :=
    List.Perm.flatMap_right _ (h.filter _)
  apply toFinset_eq_of_mem_iff
  intro x
  rw [List.mem_dedup, List.mem_dedup]
  exact hflat.mem_iff

/-- C7 (amended): the merge of `_create_combined_edge` is order-insensitive in
its weight, in its criteria list *viewed as a multiset*, and in its
de-duplicated evidence at every key *viewed as a set* — but not in the literal
`criteria_satisfied` list, which follows input order. -/
theorem merge_perm_invariant (l1 l2 : List CandidateEdge) (hperm : l1.Perm l2) :
    (createCombinedEdge l1).isSome = (createCombinedEdge l2).isSome ∧
    (∀ c1 c2, createCombinedEdge l1 = some c1 → createCombinedEdge l2 = some c2 →
      c1.weight = c2.weight ∧ c1.criteria_satisfied.Perm c2.criteria_satisfied) ∧
    ∀ k, (mergedEvidenceAt l1 k).toFinset = (mergedEvidenceAt l2 k).toFinset := by
  refine ⟨?_, ?_, mergedEvidenceAt_perm hperm⟩
  · have hlen := hperm.length_eq
    cases l1 with
    | nil =>
      cases l2 with
      | nil => rfl
      | cons x xs => simp at hlen
    | cons e r =>
      cases l2 with
      | nil => simp at hlen
      | cons x xs => rfl
  · intro c1 c2 h1 h2
    obtain ⟨hc1, hw1⟩ := createCombinedEdge_some_fields h1
    obtain ⟨hc2, hw2⟩ := createCombinedEdge_some_fields h2
    constructor
    · rw [hw1, hw2]
      exact (hperm.map (fun x => x.weight)).sum_eq
    · rw [hc1, hc2]
      exact hperm.map (fun x => x.edge_type)

/-- Witness for the amended C7 on the two-candidate fixture group in both
orders. -/
theorem merge_perm_invariant_witness :
    ([wCandX, wCandY].Perm [wCandY, wCandX]) ∧
    ((createCombinedEdge [wCandX, wCandY]).isSome =
        (createCombinedEdge [wCandY, wCandX]).isSome ∧
      (∀ c1 c2, createCombinedEdge [wCandX, wCandY] = some c1 →
        createCombinedEdge [wCandY, wCandX] = some c2 →
        c1.weight = c2.weight ∧ c1.criteria_satisfied.Perm c2.criteria_satisfied) ∧
      ∀ k, (mergedEvidenceAt [wCandX, wCandY] k).toFinset =
        (mergedEvidenceAt [wCandY, wCandX] k).toFinset) :=
  ⟨by decide, merge_perm_invariant [wCandX, wCandY] [wCandY, wCandX] (by decide)⟩

/-! ### Claim C9: total attribute parsing -/

/-- C9: `_parse_list_string` is total by construction (every branch returns a
set; the embedding is a total function), and for every input string — empty,
whitespace-only, bracketed, pipe-delimited, comma-delimited, or a bare value —
the result is a duplicate-free collection of non-empty strings.  Malformed or
empty encodings degrade to the empty set. -/
theorem parse_list_string_total (str : String) :
    (parseListString str).Nodup ∧ ∀ x ∈ parseListString str, x ≠ "" := by
  simp only [parseListString]
  split
  · exact ⟨List.nodup_nil, by simp⟩
  · split <;> rename_i hstrip
    · exact ⟨List.nodup_nil, by simp⟩
    · split
      · split
        · exact ⟨List.nodup_nil, by simp⟩
        · refine ⟨List.nodup_dedup _, ?_⟩
          intro x hx
          have hf := (List.mem_filter.mp (List.mem_dedup.mp hx)).2
          simpa using hf
      · split
        · refine ⟨List.nodup_dedup _, ?_⟩
          intro x hx
          have hf := (List.mem_filter.mp (List.mem_dedup.mp hx)).2
          simpa using hf
        · split
          · refine ⟨List.nodup_dedup _, ?_⟩
            intro x hx
            have hf := (List.mem_filter.mp (List.mem_dedup.mp hx)).2
            simpa using hf
          · refine ⟨List.nodup_singleton _, ?_⟩
            intro x hx
            rw [List.mem_singleton] at hx
            subst hx
            simpa using hstrip

/-- Witness for C9 on a messy comma-delimited input containing blank and
duplicated tokens. -/
theorem parse_list_string_total_witness :
    ((parseListString " u1, ,u2,u1, ").Nodup ∧
      "u1" ∈ parseListString " u1, ,u2,u1, " ∧ "u1" ≠ "") ∧
    parseListString "   " = [] ∧ parseListString "[ 'a', \"b\" ]" = ["a", "b"] :=
  ⟨⟨(parse_list_string_total " u1, ,u2,u1, ").1, by decide,
      (parse_list_string_total " u1, ,u2,u1, ").2 "u1" (by decide)⟩,
    by decide, by decide⟩

/-! ### Claim C8 (corrected): statistics reporter -/

theorem sum_map_add_distrib (l : List α) (f g : α → Nat) :
    (l.map (fun x => f x + g x)).sum = (l.map f).sum + (l.map g).sum := by
  induction l with
  | nil => rfl
  | cons x xs ih =>
    simp only [List.map_cons, List.sum_cons, ih]
    omega

theorem sum_map_ite_eq_countP (l : List α) (p : α → Bool) :
    (l.map (fun x => if p x then 1 else 0)).sum = l.countP p := by
  induction l with
  | nil => rfl
  | cons x xs ih =>
    simp only [List.map_cons, List.sum_cons, List.countP_cons, ih]
    cases hp : p x <;> simp [hp] <;> omega

theorem countP_or_disjoint (l : List α) (p q : α → Bool)
    (h : ∀ x ∈ l, ¬(p x = true ∧ q x = true)) :
    l.countP (fun x => p x || q x) = l.countP p + l.countP q := by
  induction l with
  | nil => rfl
  | cons x xs ih =>
    have hx := h x (List.mem_cons_self _ _)
    have hxs : ∀ y ∈ xs, ¬(p y = true ∧ q y = true) :=
      fun y hy => h y (List.mem_cons_of_mem _ hy)
    simp only [List.countP_cons, ih hxs]
    cases hp : p x with
    | true =>
      cases hq : q x with
      | true => exact absurd ⟨hp, hq⟩ hx
      | false => simp [hp, hq]; omega
    | false =>
      cases hq : q x <;> simp [hp, hq] <;> omega

theorem countP_eq_one_of_nodup_mem {l : List String} (hl : l.Nodup) {s : String}
    (hs : s ∈ l) : l.countP (fun t => s == t) = 1 := by
  induction l with
  | nil => simp at hs
  | cons x xs ih =>
    rcases List.nodup_cons.mp hl with ⟨hx, hxs⟩
    rcases List.mem_cons.mp hs with rfl | hs'
    · have hzero : xs.countP (fun t => s == t) = 0 := by
        rw [List.countP_eq_zero]
        intro t ht hcontra
        rw [beq_iff_eq] at hcontra
        exact hx (hcontra ▸ ht)
      simp [List.countP_cons, hzero]
    · have hne : (s == x) = false := by
        rw [beq_eq_false_iff_ne]
        intro hcontra
        exact hx (hcontra ▸ hs')
      simp [List.countP_cons, ih hxs hs', hne]

theorem countP_node_id {nodes : List Node} (hnd : (nodes.map Node.id).Nodup)
    {s : String} (hs : s ∈ nodes.map Node.id) :
    nodes.countP (fun n => s == n.id) = 1 :=
  (List.countP_map (fun t => s == t) Node.id nodes).symm.trans
    (countP_eq_one_of_nodup_mem hnd hs)

theorem degreeSum_eq_twice {nodes : List Node} {edges : List GEdge}
    (hnd : (nodes.map Node.id).Nodup)
    (hwf : ∀ e ∈ edges, e.u ≠ e.v ∧ e.u ∈ nodes.map Node.id ∧
      e.v ∈ nodes.map Node.id) :
    (nodes.map (fun n => degreeOf edges n.id)).sum = 2 * edges.length := by
  induction edges with
  | nil =>
    have hz : nodes.map (fun n => degreeOf ([] : List GEdge) n.id) =
        nodes.map (fun _ => 0) := by
      simp [degreeOf]
    simp [hz]
  | cons e es ih =>
    have he := hwf e (List.mem_cons_self _ _)
    have hes : ∀ x ∈ es, x.u ≠ x.v ∧ x.u ∈ nodes.map Node.id ∧
        x.v ∈ nodes.map Node.id :=
      fun x hx => hwf x (List.mem_cons_of_mem _ hx)
    have hmap : nodes.map (fun n => degreeOf (e :: es) n.id) =
        nodes.map (fun n => degreeOf es n.id +
          (if (e.u == n.id || e.v == n.id) then 1 else 0)) := by
      apply List.map_congr_left
      intro n _
      simp [degreeOf, List.countP_cons]
    have hdisj : ∀ n ∈ nodes, ¬((e.u == n.id) = true ∧ (e.v == n.id) = true) := by
      intro n _ hcontra
      exact he.1 ((beq_iff_eq.mp hcontra.1).trans (beq_iff_eq.mp hcontra.2).symm)
    rw [hmap, sum_map_add_distrib, ih hes, sum_map_ite_eq_countP,
      countP_or_disjoint _ _ _ hdisj, countP_node_id hnd he.2.1,
      countP_node_id hnd he.2.2]
    simp only [List.length_cons]
    omega

theorem lookupCount_bump (m : List (String × Nat)) (k k' : String) :
    lookupCount (bump m k) k' = lookupCount m k' + (if k == k' then 1 else 0) := by
  induction m with
  | nil =>
    by_cases h : k = k'
    · subst h
      simp [bump, lookupCount]
    · simp [bump, lookupCount, h]
  | cons p m ih =>
    obtain ⟨k0, n⟩ := p
    by_cases h0 : k0 = k
    · subst h0
      by_cases h1 : k0 = k'
      · subst h1
        simp [bump, lookupCount]
      · simp [bump, lookupCount, h1]
    · by_cases h1 : k0 = k'
      · subst h1
        have hkk : ¬ k = k0 := fun hc => h0 hc.symm
        simp [bump, lookupCount, h0, hkk]
      · simp [bump, lookupCount, h0, h1, ih]

theorem lookupCount_foldl_bump (edges : List GEdge) (tag : GEdge → String)
    (m : List (String × Nat)) (k : String) :
    lookupCount (edges.foldl (fun acc e => bump acc (tag e)) m) k =
      lookupCount m k + edges.countP (fun e => tag e == k) := by
  induction edges generalizing m with
  | nil => simp
  | cons e es ih =>
    simp only [List.foldl_cons, List.countP_cons]
    rw [ih, lookupCount_bump]
    cases h : (tag e == k) <;> simp [h] <;> omega

theorem lookupCount_foldl_bump_cond (edges : List GEdge) (cond : GEdge → Bool)
    (tag : GEdge → String) (m : List (String × Nat)) (k : String) :
    lookupCount (edges.foldl
        (fun acc e => if cond e then bump acc (tag e) else acc) m) k =
      lookupCount m k + edges.countP (fun e => cond e && tag e == k) := by
  induction edges generalizing m with
  | nil => simp
  | cons e es ih =>
    simp only [List.foldl_cons, List.countP_cons]
    cases hc : cond e with
    | false =>
      simp only [hc, Bool.false_eq_true, if_false, Bool.false_and]
      rw [ih]
      simp
    | true =>
      simp only [hc, if_true, Bool.true_and]
      rw [ih, lookupCount_bump]
      cases h2 : (tag e == k) <;> simp [h2] <;> omega

theorem two_le_length_of_two_mem {l : List α} {x y : α} (hx : x ∈ l)
    (hy : y ∈ l) (hxy : x ≠ y) : 2 ≤ l.length := by
  cases l with
  | nil => simp at hx
  | cons a t =>
    cases t with
    | nil =>
      rw [List.mem_singleton] at hx hy
      exact absurd (hx.trans hy.symm) hxy
    | cons b t2 =>
      simp only [List.length_cons]
      omega

/-- Well-formed graph value: distinct node identifiers, and every edge joins
two distinct existing nodes (as NetworkX guarantees for the graphs the
service builds — it stores no self-loops here and at most one edge per
pair). -/
def GraphWF (G : Graph) : Prop :=
  (G.nodes.map Node.id).Nodup ∧
    ∀ e ∈ G.edges, e.u ≠ e.v ∧ e.u ∈ G.nodes.map Node.id ∧
      e.v ∈ G.nodes.map Node.id

/-- C8 counterexample: on a graph with zero edges (with or without nodes) the
reporter returns the `{'message': 'No edges generated'}` dictionary, not a
statistics record with average degree 0 — so "total function … including
graphs with zero edges … returns a record" fails. -/
theorem stats_zero_edges_counterexample :
    getDetailedEdgeStatistics { nodes := [wNodeA], edges := [] } =
      StatsResult.message "No edges generated" ∧
    getDetailedEdgeStatistics { nodes := [], edges := [] } =
      StatsResult.message "No edges generated" := by
  decide

/-- C8 (amended): for every well-formed graph with at least one edge the
reporter returns a record whose average degree is `2·|E|/|V|`, whose density
is `2·|E|/(|V|·(|V|−1))`, and whose breakdowns count edges by `edge_type` and
combined edges by the sorted pipe-joined criteria key; a graph with zero
edges instead short-circuits to the `'No edges generated'` message (the
`|V| = 0` and `|V| < 2` fallbacks of the claimed formulas are unreachable
because an edge forces two distinct endpoints). -/
theorem detailed_stats_formulas (G : Graph) (hwf : GraphWF G)
    (hne : G.edges ≠ []) :
    ∃ r : DetailedStats, getDetailedEdgeStatistics G = StatsResult.stats r ∧
      r.total_nodes = G.nodes.length ∧ r.total_edges = G.edges.length ∧
      r.average_degree = 2 * (G.edges.length : ℚ) / (G.nodes.length : ℚ) ∧
      r.density = 2 * (G.edges.length : ℚ) /
        ((G.nodes.length : ℚ) * ((G.nodes.length : ℚ) - 1)) ∧
      (∀ k, lookupCount r.edge_type_breakdown k =
        G.edges.countP (fun e => e.edge_type == k)) ∧
      (∀ k, lookupCount r.combined_edge_breakdown k =
        G.edges.countP
          (fun e => e.edge_type == "combined" && combinedKey e == k)) := by
  obtain ⟨hnd, hedges⟩ := hwf
  rcases List.exists_mem_of_ne_nil _ hne with ⟨e0, he0⟩
  obtain ⟨hne_uv, hu, hv⟩ := hedges e0 he0
  have h2n : 2 ≤ G.nodes.length := by
    have := two_le_length_of_two_mem hu hv hne_uv
    rwa [List.length_map] at this
  have h1e : 1 ≤ G.edges.length := List.length_pos.mpr hne
  have hemp : G.edges.isEmpty = false := by
    cases h : G.edges.isEmpty with
    | false => rfl
    | true => exact absurd (List.isEmpty_iff.mp h) hne
  have hstats : getDetailedEdgeStatistics G = StatsResult.stats
      { total_nodes := G.nodes.length
        total_edges := G.edges.length
        edge_type_breakdown := G.edges.foldl (fun m e => bump m e.edge_type) []
        combined_edge_breakdown := G.edges.foldl
          (fun m e => if e.edge_type == "combined" then bump m (combinedKey e)
            else m) []
        average_degree := if 0 < G.nodes.length then
          (degreeSum G : ℚ) / (G.nodes.length : ℚ) else 0
        density := nxDensity G.nodes.length G.edges.length
        percentage_combined := if 0 < G.edges.length then
          (lookupCount (G.edges.foldl (fun m e => bump m e.edge_type) [])
              "combined" : ℚ) / (G.edges.length : ℚ) * 100
          else 0 } := by
    unfold getDetailedEdgeStatistics
    rw [hemp]
    rfl
  refine ⟨_, hstats, rfl, rfl, ?_, ?_, ?_, ?_⟩
  · show (if 0 < G.nodes.length then
        (degreeSum G : ℚ) / (G.nodes.length : ℚ) else 0) = _
    rw [if_pos (by omega)]
    have hds : degreeSum G = 2 * G.edges.length :=
      degreeSum_eq_twice hnd hedges
    rw [hds]
    push_cast
    ring
  · show nxDensity G.nodes.length G.edges.length = _
    unfold nxDensity
    have hm : (G.edges.length == 0) = false := by
      simp only [beq_eq_false_iff_ne]
      omega
    have hn : (decide (G.nodes.length ≤ 1)) = false := by
      simp only [decide_eq_false_iff_not]
      omega
    rw [hm, hn]
    simp
  · intro k
    show lookupCount (G.edges.foldl (fun m e => bump m e.edge_type) []) k = _
    rw [lookupCount_foldl_bump]
    simp [lookupCount]
  · intro k
    show lookupCount (G.edges.foldl
        (fun m e => if e.edge_type == "combined" then bump m (combinedKey e)
          else m) []) k = _
    rw [lookupCount_foldl_bump_cond]
    simp [lookupCount]

/-- Fixture graph for the statistics witness: two nodes joined by one combined
edge. -/
def wGraphStats : Graph :=
  { nodes := [wNodeA, wNodeB]
    edges := [⟨"acme/alpha", "beta/bravo", "combined",
      "topic_based|contributor_overlap", [], 3⟩] }

/-- Witness for the amended C8 on a concrete two-node, one-edge graph. -/
theorem detailed_stats_formulas_witness :
    (GraphWF wGraphStats ∧ wGraphStats.edges ≠ []) ∧
    ∃ r : DetailedStats,
      getDetailedEdgeStatistics wGraphStats = StatsResult.stats r ∧
      r.total_nodes = wGraphStats.nodes.length ∧
      r.total_edges = wGraphStats.edges.length ∧
      r.average_degree = 2 * (wGraphStats.edges.length : ℚ) /
        (wGraphStats.nodes.length : ℚ) ∧
      r.density = 2 * (wGraphStats.edges.length : ℚ) /
        ((wGraphStats.nodes.length : ℚ) * ((wGraphStats.nodes.length : ℚ) - 1)) ∧
      (∀ k, lookupCount r.edge_type_breakdown k =
        wGraphStats.edges.countP (fun e => e.edge_type == k)) ∧
      (∀ k, lookupCount r.combined_edge_breakdown k =
        wGraphStats.edges.countP
          (fun e => e.edge_type == "combined" && combinedKey e == k)) :=
  ⟨⟨⟨by decide, by decide⟩, by decide⟩,
    detailed_stats_formulas wGraphStats ⟨by decide, by decide⟩ (by decide)⟩

end DeepGit
